import Mathlib

/-!
# Selective web scraper: flattening and CSV encoding

A shallow embedding of `src/scrape.js` (class `SelectiveWebScraper`): the
functions `cleanForCsv`, `convertToCsvFormat`, `saveToCsv`, `scrapeUrl` and
`scrapeMultipleUrls`, together with the data they work on, followed by theorems
about them.

Modelling conventions.

* A JavaScript string is a `List Char` (`Str`).  Every character class the source
  uses (`"`, `,`, line feed, carriage return, the `\s` class, `[a-zA-Z0-9]`) lies in
  the Basic Multilingual Plane; the one place where UTF-16 code units matter is the
  selector sanitising regex without the `u` flag, which turns a character above
  U+FFFF into two underscores, and `sanitizeSelector` does so.
* A JavaScript object is the list of its own `(key, value)` entries in `Object.keys`
  order.  That is insertion order here: no key of a page result or of a flat row is
  an array index, and none is the name of a property inherited from
  `Object.prototype`, so a read of a key the object lacks gives `undefined`.
* `saveToCsv` returns the text handed to `fs.writeFileSync`, or `none` when it
  returns before writing.
* Counts and indices are natural numbers, printed in decimal (they are array lengths
  and positions, far below the range where JavaScript switches to exponents).
* The parsed page is a `Document`: the text of its `title` element and the query
  `$(selector)`, which gives the matched nodes in document order or raises a fault.
  A `Node` is what the accessors of the scraper see of a matched node.
* The network and the clock are a `World`: for the request at a position of a run it
  gives the loaded document and the capture time, or the message of the fault.
  `batchLoop` returns, next to the results of `scrapeMultipleUrls`, the events of the
  run in order, a suspension being one event.
* `parseCsv`, `quotedField`, `normalizeWhitespace`, `halveQuotes` and `quoteRuns` are not code of
  the scraper: they state the reading side of the round trip and the quoting rule
  that the properties speak about.
-/

namespace Scrape

/-- A JavaScript string. -/
abbrev Str := List Char

/-- The double quote character. -/
def dquote : Char := Char.ofNat 34

/-- The comma character. -/
def comma : Char := Char.ofNat 44

/-- The line feed character. -/
def lf : Char := Char.ofNat 10

/-- The carriage return character. -/
def cr : Char := Char.ofNat 13

/-- The space character. -/
def space : Char := Char.ofNat 32

/-- The underscore character. -/
def underscore : Char := Char.ofNat 95

/-- The class `\s` of JavaScript regular expressions, which is also the set of
characters removed by `String.prototype.trim` (WhiteSpace and LineTerminator). -/
def isWhitespace (c : Char) : Bool :=
  let n := c.toNat
  n = 9 || n = 10 || n = 11 || n = 12 || n = 13 || n = 32 || n = 160 || n = 5760
    || (8192 ≤ n && n ≤ 8202) || n = 8232 || n = 8233 || n = 8239 || n = 8287
    || n = 12288 || n = 65279

/-- The class `[a-zA-Z0-9]`. -/
def isAlphaNum (c : Char) : Bool :=
  let n := c.toNat
  (97 ≤ n && n ≤ 122) || (65 ≤ n && n ≤ 90) || (48 ≤ n && n ≤ 57)

/-- The method `Array.prototype.join` on an array of strings. -/
def joinWith (sep : Str) : List Str → Str
  | [] => []
  | [x] => x
  | x :: y :: rest => x ++ sep ++ joinWith sep (y :: rest)

/-- The method `String.prototype.includes` for a one-character needle. -/
def includesChar (s : Str) (c : Char) : Bool := s.contains c

/-- The replacement `.replace(/"/g, '""')`. -/
def doubleQuotes : Str → Str
  | [] => []
  | c :: cs => if c = dquote then dquote :: dquote :: doubleQuotes cs else c :: doubleQuotes cs

/-- The replacement `.replace(/\r?\n/g, ' ')`: a line feed, or a carriage return
directly followed by a line feed, becomes one space. -/
def replaceNewlines : Str → Str
  | [] => []
  | c :: cs =>
    if c = lf then space :: replaceNewlines cs
    else if c = cr then
      match cs with
      | [] => [c]
      | d :: ds => if d = lf then space :: replaceNewlines ds else c :: replaceNewlines (d :: ds)
    else c :: replaceNewlines cs

/-- The replacement `.replace(/\s+/g, ' ')`; `inRun` says that the character before
the current one was whitespace, so the current maximal run already gave its space. -/
def collapseAux : Bool → Str → Str
  | _, [] => []
  | inRun, c :: cs =>
    if isWhitespace c then
      if inRun then collapseAux true cs else space :: collapseAux true cs
    else c :: collapseAux false cs

/-- The replacement `.replace(/\s+/g, ' ')`. -/
def collapseWhitespace (s : Str) : Str := collapseAux false s

/-- The method `String.prototype.trim`. -/
def trim (s : Str) : Str := ((s.dropWhile isWhitespace).reverse.dropWhile isWhitespace).reverse

/-- The method `cleanForCsv`; `none` stands for `null` and `undefined`. -/
def cleanForCsv : Option Str → Str
  | none => []
  | some text =>
    if text.isEmpty then []
    else trim (collapseWhitespace (replaceNewlines (doubleQuotes text)))

/-- The replacement `selector.replace(/[^a-zA-Z0-9]/g, '_')`, per UTF-16 code unit:
a character above U+FFFF is a surrogate pair and gives two underscores. -/
def sanitizeSelector : Str → Str
  | [] => []
  | c :: cs =>
    if isAlphaNum c then c :: sanitizeSelector cs
    else if c.toNat > 65535 then underscore :: underscore :: sanitizeSelector cs
    else underscore :: sanitizeSelector cs

/-- A value of a flat row: a string or a number. -/
inductive Scalar where
  | str (s : Str)
  | num (n : Nat)
  deriving DecidableEq, Repr, Inhabited

/-- A flat row: an object from column name to scalar, as its entries in key order. -/
abbrev FlatRow := List (Str × Scalar)

/-- The keys of a row, `Object.keys(row)`. -/
def objectKeys (row : FlatRow) : List Str := row.map Prod.fst

/-- The property read `row[key]`; `none` is `undefined`. -/
def getProp : FlatRow → Str → Option Scalar
  | [], _ => none
  | (k, v) :: rest, key => if k = key then some v else getProp rest key

/-- The property write `row[key] = value`: an existing key keeps its place and
takes the new value, a new key goes to the end. -/
def setProp : FlatRow → Str → Scalar → FlatRow
  | [], key, value => [(key, value)]
  | (k, v) :: rest, key, value =>
    if k = key then (k, value) :: rest else (k, v) :: setProp rest key value

/-- An element record, built once per matched node.  The fields that depend on the
tag are `none` when the record does not have them. -/
structure ElementRecord where
  index : Nat
  tagName : Str
  text : Str
  html : Option Str
  href : Option Str := none
  title : Option Str := none
  target : Option Str := none
  src : Option Str := none
  alt : Option Str := none
  width : Option Str := none
  height : Option Str := none
  type : Option Str := none
  name : Option Str := none
  value : Option Str := none
  placeholder : Option Str := none
  property : Option Str := none
  content : Option Str := none
  id : Str := []
  «class» : Str := []
  deriving DecidableEq, Repr

/-- The result of one selector; `error` is present on the error shape only. -/
structure SelectorResult where
  selector : Str
  error : Option Str := none
  count : Nat
  elements : List ElementRecord
  deriving DecidableEq, Repr

/-- The result of one page: the three base fields, then the selector entries under
their keys, in insertion order. -/
structure PageResult where
  url : Str
  timestamp : Str
  title : Str
  selectorResults : List (Str × SelectorResult)
  deriving DecidableEq, Repr

/-- The test `key.startsWith('selector_')`. -/
def isSelectorKey (key : Str) : Bool := "selector_".toList.isPrefixOf key

/-- The keys of a page result are those of one JavaScript object built by the
extraction pass: pairwise distinct, each starting with `selector_`. -/
def PageResult.WellFormed (data : PageResult) : Prop :=
  (∀ entry ∈ data.selectorResults, isSelectorKey entry.1 = true) ∧
    (data.selectorResults.map Prod.fst).Nodup

/-- The expression `x || ''` on an optional string. -/
def orEmpty (x : Option Str) : Str := x.getD []

/-- The row pushed for one element in separate mode. -/
def separateRow (data : PageResult) (selectorData : SelectorResult) (textOnly : Bool)
    (element : ElementRecord) : FlatRow :=
  if textOnly then
    [ ("url".toList, .str data.url),
      ("selector".toList, .str selectorData.selector),
      ("text_content".toList, .str (cleanForCsv (some element.text))) ]
  else
    [ ("url".toList, .str data.url),
      ("timestamp".toList, .str data.timestamp),
      ("page_title".toList, .str (cleanForCsv (some data.title))),
      ("selector".toList, .str selectorData.selector),
      ("element_index".toList, .num element.index),
      ("tag_name".toList, .str element.tagName),
      ("text_content".toList, .str (cleanForCsv (some element.text))),
      ("html_content".toList, .str (cleanForCsv element.html)),
      ("href".toList, .str (cleanForCsv (some (orEmpty element.href)))),
      ("src".toList, .str (cleanForCsv (some (orEmpty element.src)))),
      ("alt".toList, .str (cleanForCsv (some (orEmpty element.alt)))),
      ("title_attr".toList, .str (cleanForCsv (some (orEmpty element.title)))),
      ("id".toList, .str (cleanForCsv (some element.id))),
      ("class".toList, .str (cleanForCsv (some element.«class»))),
      ("type".toList, .str (cleanForCsv (some (orEmpty element.type)))),
      ("name".toList, .str (cleanForCsv (some (orEmpty element.name)))),
      ("value".toList, .str (cleanForCsv (some (orEmpty element.value)))),
      ("width".toList, .str (cleanForCsv (some (orEmpty element.width)))),
      ("height".toList, .str (cleanForCsv (some (orEmpty element.height)))) ]

/-- The body of the separate-mode loop for one key of the page. -/
def separateStep (data : PageResult) (textOnly : Bool) (csvRows : List FlatRow)
    (entry : Str × SelectorResult) : List FlatRow :=
  if isSelectorKey entry.1 then
    let selectorData := entry.2
    if selectorData.elements.length > 0 then
      csvRows ++ selectorData.elements.map (separateRow data selectorData textOnly)
    else csvRows
  else csvRows

/-- The texts of the elements that are not empty. -/
def allTexts (selectorData : SelectorResult) : List Str :=
  (selectorData.elements.map (fun el => el.text)).filter (fun text => decide (text.length > 0))

/-- The hrefs of the elements that are present and not empty. -/
def allHrefs (selectorData : SelectorResult) : List Str :=
  (selectorData.elements.map (fun el => el.href)).filterMap
    (fun href => match href with
      | some h => if h.length > 0 then some h else none
      | none => none)

/-- The body of the combined-mode loop for one key of the page. -/
def combinedStep (textOnly : Bool) (combinedRow : FlatRow) (entry : Str × SelectorResult) :
    FlatRow :=
  if isSelectorKey entry.1 then
    let selectorData := entry.2
    let cleanSelector := sanitizeSelector selectorData.selector
    let row1 := setProp combinedRow (cleanSelector ++ "_count".toList) (.num selectorData.count)
    let row2 := setProp row1 (cleanSelector ++ "_texts".toList)
      (.str (cleanForCsv (some (joinWith " | ".toList (allTexts selectorData)))))
    if !textOnly then
      if (allHrefs selectorData).length > 0 then
        setProp row2 (cleanSelector ++ "_hrefs".toList)
          (.str (cleanForCsv (some (joinWith " | ".toList (allHrefs selectorData)))))
      else row2
    else row2
  else combinedRow

/-- The method `convertToCsvFormat`.  The keys `url`, `timestamp` and `title` of the
page do not start with `selector_`, so the loop over `Object.keys(data)` acts on the
selector entries only. -/
def convertToCsvFormat (data : PageResult) (flattenMode : Str) (textOnly : Bool) :
    List FlatRow :=
  if flattenMode = "separate".toList then
    data.selectorResults.foldl (separateStep data textOnly) []
  else
    let combinedRow : FlatRow :=
      [ ("url".toList, .str data.url),
        ("timestamp".toList, .str data.timestamp),
        ("page_title".toList, .str (cleanForCsv (some data.title))) ]
    [data.selectorResults.foldl (combinedStep textOnly) combinedRow]

/-- The conversion of a scalar to a string (`toString`, template literal, `join`). -/
def scalarToString : Scalar → Str
  | .str s => s
  | .num n => Nat.toDigits 10 n

/-- The expression `row[header] || ''`: `undefined`, the empty string and the
number 0 are falsy and give the empty string. -/
def valueOrEmpty : Option Scalar → Scalar
  | none => .str []
  | some (.str s) => if s.isEmpty then .str [] else .str s
  | some (.num n) => if n = 0 then .str [] else .num n

/-- The field written for one header column of one row. -/
def csvField (row : FlatRow) (header : Str) : Str :=
  let value := valueOrEmpty (getProp row header)
  if includesChar (scalarToString value) comma || includesChar (scalarToString value) dquote
      || includesChar (scalarToString value) lf then
    [dquote] ++ scalarToString value ++ [dquote]
  else scalarToString value

/-- The encoding part of `saveToCsv`, from the flat rows on. -/
def encodeRows (allCsvRows : List FlatRow) : Option Str :=
  match allCsvRows with
  | [] => none
  | first :: _ =>
    let headers := objectKeys first
    let csvContent := joinWith [comma] headers ++ [lf]
    some (allCsvRows.foldl
      (fun csvContent row => csvContent ++ (joinWith [comma] (headers.map (csvField row)) ++ [lf]))
      csvContent)

/-- The method `saveToCsv`: the text written to the file, `none` when nothing is
written.  `dataArray = none` is an absent argument. -/
def saveToCsv (dataArray : Option (List PageResult)) (flattenMode : Str) (textOnly : Bool) :
    Option Str :=
  match dataArray with
  | none => none
  | some [] => none
  | some (d :: ds) =>
    let allCsvRows := (d :: ds).foldl
      (fun allCsvRows data => allCsvRows ++ convertToCsvFormat data flattenMode textOnly) []
    encodeRows allCsvRows

/-- The elements of a page with the selector result that owns each, in page order. -/
def ownedElements (data : PageResult) : List (SelectorResult × ElementRecord) :=
  data.selectorResults.flatMap (fun entry => entry.2.elements.map (fun element => (entry.2, element)))

/-- The writes of the combined-mode loop for one selector result, in order. -/
def selectorWrites (textOnly : Bool) (selectorData : SelectorResult) : List (Str × Scalar) :=
  [ (sanitizeSelector selectorData.selector ++ "_count".toList, .num selectorData.count),
    (sanitizeSelector selectorData.selector ++ "_texts".toList,
      .str (cleanForCsv (some (joinWith " | ".toList (allTexts selectorData))))) ] ++
  (if textOnly = false ∧ (allHrefs selectorData).length > 0 then
    [ (sanitizeSelector selectorData.selector ++ "_hrefs".toList,
        Scalar.str (cleanForCsv (some (joinWith " | ".toList (allHrefs selectorData))))) ]
   else [])

/-- A sequence of property writes on a row. -/
def applyWrites (row : FlatRow) (writes : List (Str × Scalar)) : FlatRow :=
  writes.foldl (fun r kv => setProp r kv.1 kv.2) row

/-- The key order after adding a key: a key already present keeps its place. -/
def addKey (keys : List Str) (key : Str) : List Str :=
  if key ∈ keys then keys else keys ++ [key]

/-- An element has an href that is present and not empty. -/
def hasNonEmptyHref (element : ElementRecord) : Bool :=
  match element.href with
  | some h => !h.isEmpty
  | none => false

/-- The column names the combined-mode row gets from one selector result. -/
def selectorColumns (textOnly : Bool) (selectorData : SelectorResult) : List Str :=
  [ sanitizeSelector selectorData.selector ++ "_count".toList,
    sanitizeSelector selectorData.selector ++ "_texts".toList ] ++
  (if textOnly = false ∧ selectorData.elements.any hasNonEmptyHref = true then
    [ sanitizeSelector selectorData.selector ++ "_hrefs".toList ]
   else [])

/-- The three columns every combined-mode row starts with. -/
def baseColumns (data : PageResult) : FlatRow :=
  [ ("url".toList, .str data.url),
    ("timestamp".toList, .str data.timestamp),
    ("page_title".toList, .str (cleanForCsv (some data.title))) ]

/-- The three suffixes of the per-selector columns. -/
def columnSuffixes : List Str := ["_count".toList, "_texts".toList, "_hrefs".toList]

/-- The key sequence of a separate-mode row with `textOnly` set. -/
def textOnlyColumns : List Str := ["url".toList, "selector".toList, "text_content".toList]

/-- The key sequence of a separate-mode row without `textOnly`. -/
def fullColumns : List Str :=
  [ "url".toList, "timestamp".toList, "page_title".toList, "selector".toList,
    "element_index".toList, "tag_name".toList, "text_content".toList, "html_content".toList,
    "href".toList, "src".toList, "alt".toList, "title_attr".toList, "id".toList, "class".toList,
    "type".toList, "name".toList, "value".toList, "width".toList, "height".toList ]

/-- The value of an attribute column: the sanitised field, the empty string when the
record has no such field. -/
def cleanedField : Option Str → Str
  | none => []
  | some v => cleanForCsv (some v)

/-- The whitespace normalisation that `cleanForCsv` applies next to the doubling of
quotes: line breaks to spaces, whitespace runs to one space, both ends trimmed. -/
def normalizeWhitespace (text : Str) : Str :=
  trim (collapseWhitespace (replaceNewlines text))

/-- The quoting rule of the CSV encoder as the specification words it: a value with a
comma, a double quote or a newline is wrapped in double quotes with its double quotes
doubled, any other value is written as it is. -/
def quotedField (value : Str) : Str :=
  if includesChar value comma || includesChar value dquote || includesChar value lf then
    [dquote] ++ doubleQuotes value ++ [dquote]
  else value

/-- The state of the CSV reader inside a record: outside quotes, inside a quoted
field, or inside a quoted field just after a double quote (which closes the field
unless another double quote follows). -/
inductive ParseMode where
  | plain
  | quoted
  | quoteSeen
  deriving DecidableEq, Repr

/-- The CSV reader of the round-trip property, with the documented quoting rules:
fields are split on unquoted commas, records on unquoted newlines, and a doubled quote
inside a quoted field is read as one quote.  `field` is the field read so far,
`fields` the finished fields of the current record. -/
def parseAux : ParseMode → Str → List Str → Str → List (List Str)
  | .plain, field, fields, [] => if field = [] ∧ fields = [] then [] else [fields ++ [field]]
  | _, field, fields, [] => [fields ++ [field]]
  | .plain, field, fields, c :: cs =>
    if c = dquote then parseAux .quoted field fields cs
    else if c = comma then parseAux .plain [] (fields ++ [field]) cs
    else if c = lf then (fields ++ [field]) :: parseAux .plain [] [] cs
    else parseAux .plain (field ++ [c]) fields cs
  | .quoted, field, fields, c :: cs =>
    if c = dquote then parseAux .quoteSeen field fields cs
    else parseAux .quoted (field ++ [c]) fields cs
  | .quoteSeen, field, fields, c :: cs =>
    if c = dquote then parseAux .quoted (field ++ [dquote]) fields cs
    else if c = comma then parseAux .plain [] (fields ++ [field]) cs
    else if c = lf then (fields ++ [field]) :: parseAux .plain [] [] cs
    else parseAux .plain (field ++ [c]) fields cs

/-- The records of a CSV text. -/
def parseCsv (text : Str) : List (List Str) := parseAux .plain [] [] text

/-- A string with every doubled quote read as one quote. -/
def halveQuotes : Str → Str
  | [] => []
  | c :: cs =>
    if c = dquote then
      match cs with
      | [] => [c]
      | d :: ds => if d = dquote then dquote :: halveQuotes ds else c :: halveQuotes (d :: ds)
    else c :: halveQuotes cs

/-- The field written for a value already converted to a string. -/
def wrapField (s : Str) : Str :=
  if includesChar s comma || includesChar s dquote || includesChar s lf then
    [dquote] ++ s ++ [dquote]
  else s

/-- The string written for a header column of a row, before quoting. -/
def cellString (row : FlatRow) (header : Str) : Str :=
  scalarToString (valueOrEmpty (getProp row header))

/-- Every double quote of the string belongs to a doubled pair. -/
def QuotesDoubled (s : Str) : Prop := doubleQuotes (halveQuotes s) = s

/-- The string has no comma, double quote or newline. -/
def IsPlain (s : Str) : Prop := comma ∉ s ∧ dquote ∉ s ∧ lf ∉ s

/-- The characters of a column name built from a sanitised selector. -/
def isColumnChar (c : Char) : Bool := isAlphaNum c || c == underscore

/-- A scalar whose string form has all its double quotes in doubled pairs. -/
def ScalarOK : Scalar → Prop
  | .str s => QuotesDoubled s
  | .num _ => True

/-- All values of the row satisfy `ScalarOK`. -/
def RowOK (row : FlatRow) : Prop := ∀ kv ∈ row, ScalarOK kv.2

/-- The columns of a page that reach the rows without sanitising hold no double quote. -/
def RawQuoteFree (data : PageResult) : Prop :=
  dquote ∉ data.url ∧ dquote ∉ data.timestamp ∧
    ∀ entry ∈ data.selectorResults, dquote ∉ entry.2.selector ∧
      ∀ el ∈ entry.2.elements, dquote ∉ el.tagName

/-- The page of the specification example: one `h1`, two `p` of which one is empty,
one link. -/
def demoPage : PageResult :=
  { url := "https://example.com/".toList,
    timestamp := "2024-01-01T00:00:00.000Z".toList,
    title := "Demo".toList,
    selectorResults :=
      [ ("selector_1_h1".toList,
          { selector := "h1".toList, count := 1,
            elements := [ { index := 0, tagName := "h1".toList, text := "Title".toList,
                            html := some "Title".toList } ] }),
        ("selector_2_p".toList,
          { selector := "p".toList, count := 2,
            elements := [ { index := 0, tagName := "p".toList, text := "Hello, world".toList,
                            html := some "Hello, world".toList },
                          { index := 1, tagName := "p".toList, text := [],
                            html := some " ".toList } ] }),
        ("selector_3_a".toList,
          { selector := "a".toList, count := 1,
            elements := [ { index := 0, tagName := "a".toList, text := "link".toList,
                            html := some "link".toList, href := some "/x".toList,
                            title := some [], target := some [] } ] }) ] }

/-- A page with one paragraph whose text is `say "hi"`. -/
def quotePage : PageResult :=
  { url := "https://example.com/".toList,
    timestamp := "2024-01-01T00:00:00.000Z".toList,
    title := "Demo".toList,
    selectorResults :=
      [ ("selector_1_p".toList,
          { selector := "p".toList, count := 1,
            elements := [ { index := 0, tagName := "p".toList,
                            text := "say ".toList ++ [dquote] ++ "hi".toList ++ [dquote],
                            html := some ("say ".toList ++ [dquote] ++ "hi".toList ++ [dquote]) } ] }) ] }

/-- A page with one paragraph whose text is `x`, a line feed, `y`. -/
def lineBreakPage : PageResult :=
  { url := "https://example.com/".toList,
    timestamp := "2024-01-01T00:00:00.000Z".toList,
    title := "Demo".toList,
    selectorResults :=
      [ ("selector_1_p".toList,
          { selector := "p".toList, count := 1,
            elements := [ { index := 0, tagName := "p".toList,
                            text := "x".toList ++ [lf] ++ "y".toList,
                            html := some ("x".toList ++ [lf] ++ "y".toList) } ] }) ] }

/-- A page with one paragraph whose text is `a,b"c`. -/
def commaQuotePage : PageResult :=
  { url := "https://example.com/".toList,
    timestamp := "2024-01-01T00:00:00.000Z".toList,
    title := "Demo".toList,
    selectorResults :=
      [ ("selector_1_p".toList,
          { selector := "p".toList, count := 1,
            elements := [ { index := 0, tagName := "p".toList,
                            text := "a,b".toList ++ [dquote] ++ "c".toList,
                            html := some ("a,b".toList ++ [dquote] ++ "c".toList) } ] }) ] }

/-- The selector result of `.a` on the colliding page: one paragraph, no link. -/
def classResult : SelectorResult :=
  { selector := ".a".toList, count := 1,
    elements := [ { index := 0, tagName := "p".toList, text := "x".toList,
                    html := some "x".toList, «class» := "a".toList } ] }

/-- The selector result of `#a` on the colliding page: two links. -/
def idResult : SelectorResult :=
  { selector := "#a".toList, count := 2,
    elements := [ { index := 0, tagName := "a".toList, text := "y".toList,
                    html := some "y".toList, href := some "/y".toList, title := some [],
                    target := some [], id := "a".toList },
                  { index := 1, tagName := "a".toList, text := "z".toList,
                    html := some "z".toList, href := some "/z".toList, title := some [],
                    target := some [], id := "a".toList } ] }

/-- A page scraped with the selectors `.a` and `#a`, which both sanitise to `_a`. -/
def collidePage : PageResult :=
  { url := "https://example.com/".toList,
    timestamp := "2024-01-01T00:00:00.000Z".toList,
    title := "Demo".toList,
    selectorResults :=
      [ ("selector_1__a".toList, classResult), ("selector_2__a".toList, idResult) ] }

/-- A page scraped with the selectors `p` (one match) and `h2` (no match). -/
def zeroPage : PageResult :=
  { url := "https://example.com/".toList,
    timestamp := "2024-01-01T00:00:00.000Z".toList,
    title := "Demo".toList,
    selectorResults :=
      [ ("selector_1_p".toList,
          { selector := "p".toList, count := 1,
            elements := [ { index := 0, tagName := "p".toList, text := "first".toList,
                            html := some "first".toList } ] }),
        ("selector_2_h2".toList, { selector := "h2".toList, count := 0, elements := [] }) ] }

instance (data : PageResult) : Decidable data.WellFormed := by
  unfold PageResult.WellFormed
  infer_instance

instance (data : PageResult) : Decidable (RawQuoteFree data) := by
  unfold RawQuoteFree
  infer_instance

/-- A page scraped with the selector `a[title="x"]`, with one match. -/
def attrPage : PageResult :=
  { url := "https://example.com/".toList,
    timestamp := "2024-01-01T00:00:00.000Z".toList,
    title := "Demo".toList,
    selectorResults :=
      [ ("selector_1_a_title__x__".toList,
          { selector := "a[title=".toList ++ [dquote] ++ "x".toList ++ [dquote] ++ "]".toList,
            count := 1,
            elements := [ { index := 0, tagName := "a".toList, text := "link".toList,
                            html := some "link".toList, href := some "/x".toList,
                            title := some "x".toList, target := some [] } ] }) ] }

/-- The only row of the quote page in separate text-only mode. -/
def quoteRow : FlatRow :=
  [ ("url".toList, .str "https://example.com/".toList),
    ("selector".toList, .str "p".toList),
    ("text_content".toList,
      .str ("say ".toList ++ [dquote, dquote] ++ "hi".toList ++ [dquote, dquote])) ]

/-- The only row of the comma-and-quote page in separate text-only mode. -/
def commaQuoteRow : FlatRow :=
  [ ("url".toList, .str "https://example.com/".toList),
    ("selector".toList, .str "p".toList),
    ("text_content".toList, .str ("a,b".toList ++ [dquote, dquote] ++ "c".toList)) ]

/-- A node matched by a query, as seen through the accessors the scraper uses:
`element.tagName`, `$el.text()`, `$el.html()`, `$el.attr(name)` and `$el.val()`. -/
structure Node where
  tagName : Str
  text : Str
  html : Option Str
  attrs : List (Str × Str) := []
  val : Option Str := none
  deriving DecidableEq, Repr

/-- The accessor `$el.attr(name)`; `none` is `undefined`. -/
def Node.attr (element : Node) (name : Str) : Option Str :=
  (element.attrs.find? (fun kv => kv.1 = name)).map Prod.snd

/-- The expression `$el.attr('value') || $el.val() || ''`. -/
def Node.valueOrVal (element : Node) : Str :=
  if !(orEmpty (element.attr "value".toList)).isEmpty then orEmpty (element.attr "value".toList)
  else orEmpty element.val

/-- The record built for one matched node, the body of `elements.each`. -/
def normalizeElement (i : Nat) (element : Node) : ElementRecord :=
  let elementData : ElementRecord :=
    { index := i, tagName := element.tagName, text := trim element.text, html := element.html }
  let typed : ElementRecord :=
    if element.tagName = "a".toList then
      { elementData with
        href := some (orEmpty (element.attr "href".toList)),
        title := some (orEmpty (element.attr "title".toList)),
        target := some (orEmpty (element.attr "target".toList)) }
    else if element.tagName = "img".toList then
      { elementData with
        src := some (orEmpty (element.attr "src".toList)),
        alt := some (orEmpty (element.attr "alt".toList)),
        width := some (orEmpty (element.attr "width".toList)),
        height := some (orEmpty (element.attr "height".toList)) }
    else if element.tagName ∈ ["input".toList, "textarea".toList, "select".toList] then
      { elementData with
        type := some (orEmpty (element.attr "type".toList)),
        name := some (orEmpty (element.attr "name".toList)),
        value := some element.valueOrVal,
        placeholder := some (orEmpty (element.attr "placeholder".toList)) }
    else if element.tagName = "meta".toList then
      { elementData with
        name := some (orEmpty (element.attr "name".toList)),
        property := some (orEmpty (element.attr "property".toList)),
        content := some (orEmpty (element.attr "content".toList)) }
    else elementData
  { typed with
    id := orEmpty (element.attr "id".toList),
    «class» := orEmpty (element.attr "class".toList) }

/-- The loop `elements.each((i, element) => ...)` from position `i` on. -/
def normalizeFrom : Nat → List Node → List ElementRecord
  | _, [] => []
  | i, element :: rest => normalizeElement i element :: normalizeFrom (i + 1) rest

/-- A loaded document: the text of its `title` element and the query `$(selector)`,
which gives the matched nodes in document order or raises a fault with a message. -/
structure Document where
  titleText : Str
  query : Str → Except Str (List Node)

/-- The write `scrapedData[key] = value` on the selector entries of a page: an
existing key keeps its place and takes the new value, a new key goes to the end.
The keys written start with `selector_`, so they never hit `url`, `timestamp` or
`title`. -/
def setEntry : List (Str × SelectorResult) → Str → SelectorResult → List (Str × SelectorResult)
  | [], key, value => [(key, value)]
  | (k, v) :: rest, key, value =>
    if k = key then (k, value) :: rest else (k, v) :: setEntry rest key value

/-- The key and the value stored for one selector at 0-based position `index`: the
body of `selectors.forEach`, with its `try` and `catch` branches. -/
def selectorEntry (doc : Document) (selector : Str) (index : Nat) : Str × SelectorResult :=
  match doc.query selector with
  | .ok elements =>
    let extractedData := normalizeFrom 0 elements
    let cleanSelector := sanitizeSelector selector
    ("selector_".toList ++ Nat.toDigits 10 (index + 1) ++ "_".toList ++ cleanSelector,
      { selector := selector, count := extractedData.length, elements := extractedData })
  | .error message =>
    ("selector_".toList ++ Nat.toDigits 10 (index + 1) ++ "_error".toList,
      { selector := selector, error := some message, count := 0, elements := [] })

/-- The loop `selectors.forEach((selector, index) => ...)` from position `index` on. -/
def processSelectors (doc : Document) :
    Nat → List Str → List (Str × SelectorResult) → List (Str × SelectorResult)
  | _, [], entries => entries
  | index, selector :: rest, entries =>
    let entry := selectorEntry doc selector index
    processSelectors doc (index + 1) rest (setEntry entries entry.1 entry.2)

/-- The selectors used: the default set when none is given. -/
def effectiveSelectors (selectors : List Str) : List Str :=
  if selectors.length = 0 then ["h1".toList, "h2".toList, "p".toList, "a".toList] else selectors

/-- The extraction pass of `scrapeUrl`, from the loaded document on; `timestamp` is
the value of `new Date().toISOString()`. -/
def extractPage (doc : Document) (url timestamp : Str) (selectors : List Str) : PageResult :=
  { url := url,
    timestamp := timestamp,
    title := if (trim doc.titleText).isEmpty then "No Title".toList else trim doc.titleText,
    selectorResults := processSelectors doc 0 (effectiveSelectors selectors) [] }

/-- The outcome of the request of `scrapeUrl` for the URL at a position of a run:
the loaded document and the time of the capture, or the message of the fault. -/
abbrev World := Nat → Str → Except Str (Document × Str)

/-- The method `scrapeUrl`, for the request at position `i` of a run. -/
def scrapeUrl (world : World) (i : Nat) (url : Str) (selectors : List Str) :
    Except Str PageResult :=
  match world i url with
  | .ok (doc, timestamp) => .ok (extractPage doc url timestamp selectors)
  | .error message => .error ("Scraping failed: ".toList ++ message)

/-- What a run of `scrapeMultipleUrls` does in order: it processes the URL at a
position, or it suspends for a number of milliseconds. -/
inductive Event where
  | process (i : Nat) (url : Str)
  | suspend (ms : Nat)
  deriving DecidableEq, Repr

/-- The expression `options.delay || 2000`. -/
def delayOf (optionsDelay : Option Nat) : Nat :=
  match optionsDelay with
  | none => 2000
  | some d => if d = 0 then 2000 else d

/-- The loop of `scrapeMultipleUrls` from position `i` on, for `n` URLs in all: the
results pushed and the events, in order. -/
def batchLoop (world : World) (selectors : List Str) (delay n : Nat) :
    Nat → List Str → List PageResult × List Event
  | _, [] => ([], [])
  | i, url :: rest =>
    let tail := batchLoop world selectors delay n (i + 1) rest
    match scrapeUrl world i url selectors with
    | .ok data =>
      if delay > 0 ∧ i < n - 1 then
        (data :: tail.1, Event.process i url :: Event.suspend delay :: tail.2)
      else (data :: tail.1, Event.process i url :: tail.2)
    | .error _ => (tail.1, Event.process i url :: tail.2)

/-- The method `scrapeMultipleUrls`: the results it returns. -/
def scrapeMultipleUrls (world : World) (urls selectors : List Str) (optionsDelay : Option Nat) :
    List PageResult :=
  (batchLoop world selectors (delayOf optionsDelay) urls.length 0 urls).1

/-- The events of a run of `scrapeMultipleUrls`. -/
def batchTrace (world : World) (urls selectors : List Str) (optionsDelay : Option Nat) :
    List Event :=
  (batchLoop world selectors (delayOf optionsDelay) urls.length 0 urls).2

/-- The value of a decimal digit character. -/
def digitValue (c : Char) : Nat := c.toNat - 48

/-- The number a string of decimal digits stands for. -/
def decimalValue : Str → Nat
  | [] => 0
  | c :: cs => digitValue c * 10 ^ cs.length + decimalValue cs

/-- The entries the loop over the selectors stores, from position `index` on. -/
def entriesFrom (doc : Document) : Nat → List Str → List (Str × SelectorResult)
  | _, [] => []
  | index, selector :: rest => selectorEntry doc selector index :: entriesFrom doc (index + 1) rest

/-- The document of the specification example: one `h1` with text `Title`, two `p` of
which the second is blank, one link to `/x` with text `link`. -/
def demoDocument : Document :=
  { titleText := "Demo".toList,
    query := fun selector =>
      if selector = "h1".toList then
        .ok [ { tagName := "h1".toList, text := "Title".toList, html := some "Title".toList } ]
      else if selector = "p".toList then
        .ok [ { tagName := "p".toList, text := "Hello, world".toList,
                html := some "Hello, world".toList },
              { tagName := "p".toList, text := " ".toList, html := some " ".toList } ]
      else if selector = "a".toList then
        .ok [ { tagName := "a".toList, text := "link".toList, html := some "link".toList,
                attrs := [("href".toList, "/x".toList)] } ]
      else .ok [] }

/-- The example document queried by an engine that rejects the selector `]`. -/
def strictDocument : Document :=
  { titleText := "Demo".toList,
    query := fun selector =>
      if selector = "]".toList then .error "Unmatched selector: ]".toList
      else demoDocument.query selector }

/-- The rows of the specification example: the example document scraped with the
selectors `h1`, `p`, `a` and flattened in separate mode with all columns. -/
def demoRows : List FlatRow :=
  convertToCsvFormat
    (extractPage demoDocument "https://example.com/".toList "2024-01-01T00:00:00.000Z".toList
      ["h1".toList, "p".toList, "a".toList])
    "separate".toList false

/-- The rows among `rows` whose `selector` column is `selector`. -/
def rowsOfSelector (rows : List FlatRow) (selector : Str) : List FlatRow :=
  rows.filter (fun row => decide (getProp row "selector".toList = some (.str selector)))

/-- The page of a call of `scrapeUrl` that returned, `none` for one that threw. -/
def pageOf (outcome : Except Str PageResult) : Option PageResult :=
  match outcome with
  | .ok data => some data
  | .error _ => none

/-- A world in which the request for the URL at position `failing` fails and every
other request gives the example document. -/
def worldFailingAt (failing : Nat) : World := fun i _ =>
  if i = failing then .error "timeout of 15000ms exceeded".toList
  else .ok (demoDocument, "2024-01-01T00:00:00.000Z".toList)

/-- The events of a suspension. -/
def isSuspend (event : Event) : Bool :=
  match event with
  | .suspend _ => true
  | .process _ _ => false

/-- The columns whose values reach the rows as they are, without sanitising. -/
def rawColumns : List Str :=
  ["url".toList, "timestamp".toList, "selector".toList, "tag_name".toList]

/-- The unsanitised values of a page hold no line feed. -/
def RawLineFree (data : PageResult) : Prop :=
  lf ∉ data.url ∧ lf ∉ data.timestamp ∧
    ∀ entry ∈ data.selectorResults, lf ∉ entry.2.selector ∧
      ∀ el ∈ entry.2.elements, lf ∉ el.tagName

instance (data : PageResult) : Decidable (RawLineFree data) := by
  unfold RawLineFree
  infer_instance

/-- A page scraped with the descendant selector `ul`, line feed, `li`. -/
def lineBreakSelectorPage : PageResult :=
  { url := "https://example.com/".toList,
    timestamp := "2024-01-01T00:00:00.000Z".toList,
    title := "Demo".toList,
    selectorResults :=
      [ ("selector_1_ul_li".toList,
          { selector := "ul".toList ++ [lf] ++ "li".toList, count := 1,
            elements := [ { index := 0, tagName := "li".toList, text := "one".toList,
                            html := some "one".toList } ] }) ] }

/-- The lengths of the maximal runs of double quotes of a string, in order; `current`
is the length of the run that ends just before the string. -/
def quoteRunsAux : Nat → Str → List Nat
  | current, [] => if current = 0 then [] else [current]
  | current, c :: cs =>
    if c = dquote then quoteRunsAux (current + 1) cs
    else if current = 0 then quoteRunsAux 0 cs
    else current :: quoteRunsAux 0 cs

/-- The lengths of the maximal runs of double quotes of a string, in order. -/
def quoteRuns (s : Str) : List Nat := quoteRunsAux 0 s

/-! ## Rows as objects -/

theorem getProp_setProp_same (row : FlatRow) (k : Str) (v : Scalar) :
    getProp (setProp row k v) k = some v := by
  induction row with
  | nil => simp [setProp, getProp]
  | cons p rest ih =>
    obtain ⟨k', v'⟩ := p
    by_cases h : k' = k
    · simp [setProp, getProp, h]
    · simp [setProp, getProp, h, ih]

theorem getProp_setProp_other (row : FlatRow) (k key : Str) (v : Scalar) (h : k ≠ key) :
    getProp (setProp row k v) key = getProp row key := by
  induction row with
  | nil => simp [setProp, getProp, h]
  | cons p rest ih =>
    obtain ⟨k', v'⟩ := p
    by_cases h' : k' = k
    · subst h'
      simp [setProp, getProp, h]
    · by_cases h2 : k' = key
      · have h3 : ¬ key = k := fun e => h' (h2.trans e)
        simp [setProp, getProp, h2, h3]
      · simp [setProp, getProp, h', h2, ih]

theorem objectKeys_setProp (row : FlatRow) (k : Str) (v : Scalar) :
    objectKeys (setProp row k v) =
      if k ∈ objectKeys row then objectKeys row else objectKeys row ++ [k] := by
  induction row with
  | nil => simp [setProp, objectKeys]
  | cons p rest ih =>
    obtain ⟨k', v'⟩ := p
    by_cases h : k' = k
    · subst h
      simp [setProp, objectKeys]
    · have h' : ¬ k = k' := fun e => h e.symm
      simp only [setProp, if_neg h, objectKeys, List.map_cons, List.mem_cons, h', false_or] at ih ⊢
      rw [ih]
      split <;> rfl

theorem mem_objectKeys_iff (row : FlatRow) (key : Str) :
    key ∈ objectKeys row ↔ (getProp row key).isSome = true := by
  induction row with
  | nil => simp [objectKeys, getProp]
  | cons p rest ih =>
    obtain ⟨k', v'⟩ := p
    by_cases h : k' = key
    · simp [objectKeys, getProp, h]
    · have h' : ¬ key = k' := fun e => h e.symm
      simp only [objectKeys, List.map_cons, List.mem_cons, h', false_or, getProp, if_neg h] at ih ⊢
      exact ih

theorem combinedStep_eq (textOnly : Bool) (row : FlatRow) (entry : Str × SelectorResult)
    (h : isSelectorKey entry.1 = true) :
    combinedStep textOnly row entry = applyWrites row (selectorWrites textOnly entry.2) := by
  unfold combinedStep selectorWrites applyWrites
  rw [if_pos h]
  cases textOnly
  · by_cases hh : (allHrefs entry.2).length > 0
    · simp [hh]
    · simp [hh]
  · simp

theorem applyWrites_append (row : FlatRow) (w₁ w₂ : List (Str × Scalar)) :
    applyWrites row (w₁ ++ w₂) = applyWrites (applyWrites row w₁) w₂ := by
  simp [applyWrites, List.foldl_append]

theorem foldl_combinedStep (textOnly : Bool) (entries : List (Str × SelectorResult))
    (row : FlatRow) (h : ∀ entry ∈ entries, isSelectorKey entry.1 = true) :
    entries.foldl (combinedStep textOnly) row =
      applyWrites row (entries.flatMap (fun entry => selectorWrites textOnly entry.2)) := by
  induction entries generalizing row with
  | nil => rfl
  | cons entry rest ih =>
    rw [List.foldl_cons, ih _ (fun e he => h e (List.mem_cons_of_mem _ he)),
      combinedStep_eq _ _ _ (h entry (List.mem_cons_self _ _)), List.flatMap_cons,
      applyWrites_append]

theorem objectKeys_applyWrites (row : FlatRow) (writes : List (Str × Scalar)) :
    objectKeys (applyWrites row writes) = (writes.map Prod.fst).foldl addKey (objectKeys row) := by
  induction writes generalizing row with
  | nil => rfl
  | cons w rest ih =>
    simp only [applyWrites, List.foldl_cons, List.map_cons] at ih ⊢
    rw [ih, objectKeys_setProp]
    rfl

theorem getProp_applyWrites_not_mem (row : FlatRow) (writes : List (Str × Scalar)) (key : Str)
    (h : key ∉ writes.map Prod.fst) : getProp (applyWrites row writes) key = getProp row key := by
  induction writes generalizing row with
  | nil => rfl
  | cons w rest ih =>
    simp only [List.map_cons, List.mem_cons, not_or] at h
    simp only [applyWrites, List.foldl_cons] at ih ⊢
    rw [ih _ h.2, getProp_setProp_other _ _ _ _ (fun e => h.1 e.symm)]

theorem getProp_applyWrites_last (row : FlatRow) (w₁ w₂ : List (Str × Scalar)) (key : Str)
    (value : Scalar) (h : key ∉ w₂.map Prod.fst) :
    getProp (applyWrites row (w₁ ++ (key, value) :: w₂)) key = some value := by
  rw [applyWrites_append]
  show getProp (applyWrites (setProp (applyWrites row w₁) key value) w₂) key = some value
  rw [getProp_applyWrites_not_mem _ _ _ h, getProp_setProp_same]

theorem setProp_append_left (a b : FlatRow) (k : Str) (v : Scalar) (h : k ∉ objectKeys a) :
    setProp (a ++ b) k v = a ++ setProp b k v := by
  induction a with
  | nil => rfl
  | cons p rest ih =>
    obtain ⟨k', v'⟩ := p
    simp only [objectKeys, List.map_cons, List.mem_cons, not_or] at h
    have h1 : ¬ k' = k := fun e => h.1 e.symm
    show setProp ((k', v') :: (rest ++ b)) k v = (k', v') :: (rest ++ setProp b k v)
    rw [setProp, if_neg h1, ih h.2]

theorem applyWrites_append_left (a b : FlatRow) (writes : List (Str × Scalar))
    (h : ∀ k ∈ writes.map Prod.fst, k ∉ objectKeys a) :
    applyWrites (a ++ b) writes = a ++ applyWrites b writes := by
  induction writes generalizing b with
  | nil => rfl
  | cons w rest ih =>
    simp only [applyWrites, List.foldl_cons] at ih ⊢
    rw [setProp_append_left _ _ _ _ (h _ (by simp)), ih]
    intro k hk
    exact h k (by simp only [List.map_cons, List.mem_cons]; exact Or.inr hk)

theorem mem_foldl_addKey (keys cols : List Str) (key : Str) :
    key ∈ cols.foldl addKey keys ↔ key ∈ keys ∨ key ∈ cols := by
  induction cols generalizing keys with
  | nil => simp
  | cons c rest ih =>
    rw [List.foldl_cons, ih]
    unfold addKey
    by_cases hc : c ∈ keys
    · rw [if_pos hc]
      constructor
      · rintro (h | h)
        · exact Or.inl h
        · exact Or.inr (List.mem_cons_of_mem _ h)
      · rintro (h | h)
        · exact Or.inl h
        · rcases List.mem_cons.1 h with h | h
          · exact Or.inl (h ▸ hc)
          · exact Or.inr h
    · rw [if_neg hc]
      simp only [List.mem_append, List.mem_singleton, List.mem_cons]
      tauto

theorem foldl_addKey_of_nodup (keys cols : List Str) (hn : cols.Nodup)
    (hd : ∀ k ∈ cols, k ∉ keys) : cols.foldl addKey keys = keys ++ cols := by
  induction cols generalizing keys with
  | nil => simp
  | cons c rest ih =>
    have hc : c ∉ keys := hd c (List.mem_cons_self _ _)
    rw [List.foldl_cons]
    have : addKey keys c = keys ++ [c] := by unfold addKey; rw [if_neg hc]
    rw [this, ih _ (List.nodup_cons.1 hn).2, List.append_assoc]
    · rfl
    · intro k hk
      simp only [List.mem_append, List.mem_singleton, not_or]
      refine ⟨hd k (List.mem_cons_of_mem _ hk), ?_⟩
      rintro rfl
      exact (List.nodup_cons.1 hn).1 hk

/-! ## Separate mode -/

theorem foldl_separateStep (data : PageResult) (textOnly : Bool)
    (entries : List (Str × SelectorResult)) (acc : List FlatRow)
    (h : ∀ entry ∈ entries, isSelectorKey entry.1 = true) :
    entries.foldl (separateStep data textOnly) acc =
      acc ++ entries.flatMap
        (fun entry => entry.2.elements.map (separateRow data entry.2 textOnly)) := by
  induction entries generalizing acc with
  | nil => simp
  | cons entry rest ih =>
    have hk : isSelectorKey entry.1 = true := h entry (List.mem_cons_self _ _)
    have hr : ∀ e ∈ rest, isSelectorKey e.1 = true := fun e he => h e (List.mem_cons_of_mem _ he)
    rw [List.foldl_cons, ih _ hr, List.flatMap_cons]
    unfold separateStep
    rw [if_pos hk]
    by_cases hl : entry.2.elements.length > 0
    · simp only [hl, if_true, List.append_assoc]
    · have : entry.2.elements = [] := by
        cases hE : entry.2.elements with
        | nil => rfl
        | cons a l => simp [hE] at hl
      simp [this]

theorem convert_separate_eq (data : PageResult) (textOnly : Bool) (h : data.WellFormed) :
    convertToCsvFormat data "separate".toList textOnly =
      (ownedElements data).map (fun p => separateRow data p.1 textOnly p.2) := by
  unfold convertToCsvFormat ownedElements
  rw [if_pos rfl, foldl_separateStep _ _ _ _ h.1, List.nil_append]
  induction data.selectorResults with
  | nil => rfl
  | cons e r ih => simp [List.flatMap_cons, ih, List.map_append, List.map_map, Function.comp_def]

theorem separateRow_url (data : PageResult) (sd : SelectorResult) (textOnly : Bool) (e : ElementRecord) :
    getProp (separateRow data sd textOnly e) "url".toList = some (.str data.url) := by
  cases textOnly <;> rfl

theorem separateRow_selector (data : PageResult) (sd : SelectorResult) (textOnly : Bool) (e : ElementRecord) :
    getProp (separateRow data sd textOnly e) "selector".toList = some (.str sd.selector) := by
  cases textOnly <;> rfl

theorem separateRow_text (data : PageResult) (sd : SelectorResult) (textOnly : Bool) (e : ElementRecord) :
    getProp (separateRow data sd textOnly e) "text_content".toList = some (.str (cleanForCsv (some e.text))) := by
  cases textOnly <;> rfl

/-! ## Combined mode -/

theorem allHrefs_length_pos (sd : SelectorResult) :
    (allHrefs sd).length > 0 ↔ sd.elements.any hasNonEmptyHref = true := by
  unfold allHrefs
  induction sd.elements with
  | nil => simp
  | cons e rest ih =>
    simp only [List.map_cons, List.any_cons, Bool.or_eq_true]
    rw [← ih]
    unfold hasNonEmptyHref
    cases hh : e.href with
    | none => simp [List.filterMap_cons]
    | some v =>
      cases v with
      | nil => simp [List.filterMap_cons]
      | cons a l => simp [List.filterMap_cons]

theorem selectorWrites_keys (textOnly : Bool) (sd : SelectorResult) :
    (selectorWrites textOnly sd).map Prod.fst = selectorColumns textOnly sd := by
  unfold selectorWrites selectorColumns
  by_cases h : textOnly = false ∧ (allHrefs sd).length > 0
  · have h' : textOnly = false ∧ sd.elements.any hasNonEmptyHref = true :=
      ⟨h.1, (allHrefs_length_pos sd).1 h.2⟩
    rw [if_pos h, if_pos h']
    rfl
  · have h' : ¬ (textOnly = false ∧ sd.elements.any hasNonEmptyHref = true) :=
      fun hh => h ⟨hh.1, (allHrefs_length_pos sd).2 hh.2⟩
    rw [if_neg h, if_neg h']
    rfl

theorem mem_selectorColumns (textOnly : Bool) (sd : SelectorResult) (k : Str)
    (h : k ∈ selectorColumns textOnly sd) :
    ∃ suf ∈ columnSuffixes, k = sanitizeSelector sd.selector ++ suf := by
  unfold selectorColumns at h
  simp only [List.mem_append, List.mem_cons, List.mem_singleton, List.not_mem_nil, or_false] at h
  rcases h with (h | h) | h
  · exact ⟨_, by simp [columnSuffixes], h⟩
  · exact ⟨_, by simp [columnSuffixes], h⟩
  · split at h
    · simp only [List.mem_singleton] at h
      exact ⟨_, by simp [columnSuffixes], h⟩
    · simp at h

theorem suffix_length (suf : Str) (h : suf ∈ columnSuffixes) : suf.length = 6 := by
  simp only [columnSuffixes, List.mem_cons, List.mem_singleton, List.not_mem_nil, or_false] at h
  rcases h with h | h | h <;> subst h <;> rfl

theorem column_inj (s₁ s₂ suf₁ suf₂ : Str) (h₁ : suf₁ ∈ columnSuffixes)
    (h₂ : suf₂ ∈ columnSuffixes) (h : s₁ ++ suf₁ = s₂ ++ suf₂) : s₁ = s₂ ∧ suf₁ = suf₂ :=
  List.append_inj' h ((suffix_length _ h₁).trans (suffix_length _ h₂).symm)

theorem column_not_base (data : PageResult) (s suf : Str) (h : suf ∈ columnSuffixes) :
    s ++ suf ∉ objectKeys (baseColumns data) := by
  intro hm
  have hs : suf <:+ s ++ suf := List.suffix_append _ _
  simp only [baseColumns, objectKeys, List.map_cons, List.map_nil, List.mem_cons,
    List.mem_singleton, List.not_mem_nil, or_false] at hm
  simp only [columnSuffixes, List.mem_cons, List.mem_singleton, List.not_mem_nil, or_false] at h
  rcases hm with hm | hm | hm <;> rw [hm] at hs <;> rcases h with h | h | h <;> subst h <;>
    revert hs <;> decide

theorem convert_combined_eq (data : PageResult) (textOnly : Bool) (h : data.WellFormed) :
    convertToCsvFormat data "combined".toList textOnly =
      [baseColumns data ++ applyWrites []
        (data.selectorResults.flatMap (fun entry => selectorWrites textOnly entry.2))] := by
  unfold convertToCsvFormat
  rw [if_neg (by decide)]
  show [List.foldl (combinedStep textOnly) (baseColumns data) data.selectorResults] = _
  rw [foldl_combinedStep _ _ _ h.1]
  have := applyWrites_append_left (baseColumns data) []
    (data.selectorResults.flatMap (fun entry => selectorWrites textOnly entry.2)) ?_
  · rw [List.append_nil] at this
    rw [this]
  · intro k hk
    simp only [List.map_flatMap, List.mem_flatMap] at hk
    obtain ⟨entry, _, hk⟩ := hk
    rw [selectorWrites_keys] at hk
    obtain ⟨suf, hsuf, rfl⟩ := mem_selectorColumns _ _ _ hk
    exact column_not_base data _ suf hsuf

/-! ## Combined mode: columns -/

theorem getProp_append_right (a b : FlatRow) (key : Str) (h : key ∉ objectKeys a) :
    getProp (a ++ b) key = getProp b key := by
  induction a with
  | nil => rfl
  | cons p rest ih =>
    obtain ⟨k', v'⟩ := p
    simp only [objectKeys, List.map_cons, List.mem_cons, not_or] at h
    have h1 : ¬ k' = key := fun e => h.1 e.symm
    show getProp ((k', v') :: (rest ++ b)) key = getProp b key
    rw [getProp, if_neg h1, ih h.2]

theorem mem_objectKeys_append (a b : FlatRow) (key : Str) :
    key ∈ objectKeys (a ++ b) ↔ key ∈ objectKeys a ∨ key ∈ objectKeys b := by
  simp [objectKeys]

/-- The value a write of one selector result leaves in the combined row, when no
later selector result of the page sanitises to the same name. -/
theorem getProp_combined_of_last (data : PageResult) (textOnly : Bool) (h : data.WellFormed)
    (pre post : List (Str × SelectorResult)) (key : Str) (r : SelectorResult)
    (hsplit : data.selectorResults = pre ++ (key, r) :: post)
    (hlast : ∀ e ∈ post, sanitizeSelector e.2.selector ≠ sanitizeSelector r.selector)
    (w₁ w₂ : List (Str × Scalar)) (suf : Str) (v : Scalar) (hsuf : suf ∈ columnSuffixes)
    (hw : selectorWrites textOnly r = w₁ ++ (sanitizeSelector r.selector ++ suf, v) :: w₂)
    (hk : sanitizeSelector r.selector ++ suf ∉ w₂.map Prod.fst) :
    ∃ row, convertToCsvFormat data "combined".toList textOnly = [row] ∧
      getProp row (sanitizeSelector r.selector ++ suf) = some v := by
  refine ⟨_, convert_combined_eq data textOnly h, ?_⟩
  rw [getProp_append_right _ _ _ (column_not_base data _ suf hsuf), hsplit]
  simp only [List.flatMap_append, List.flatMap_cons]
  rw [hw]
  have e : pre.flatMap (fun entry => selectorWrites textOnly entry.2) ++
      ((w₁ ++ (sanitizeSelector r.selector ++ suf, v) :: w₂) ++
        post.flatMap (fun entry => selectorWrites textOnly entry.2)) =
      (pre.flatMap (fun entry => selectorWrites textOnly entry.2) ++ w₁) ++
        (sanitizeSelector r.selector ++ suf, v) ::
          (w₂ ++ post.flatMap (fun entry => selectorWrites textOnly entry.2)) := by
    simp only [List.append_assoc, List.cons_append]
  rw [e]
  apply getProp_applyWrites_last
  rw [List.map_append, List.mem_append, not_or]
  refine ⟨hk, ?_⟩
  intro hm
  simp only [List.map_flatMap, List.mem_flatMap] at hm
  obtain ⟨entry, he, hm⟩ := hm
  rw [selectorWrites_keys] at hm
  obtain ⟨suf', hsuf', hm⟩ := mem_selectorColumns _ _ _ hm
  exact hlast entry he (column_inj _ _ _ _ hsuf hsuf' hm).1.symm

theorem count_ne_texts (s : Str) : s ++ "_count".toList ≠ s ++ "_texts".toList :=
  fun e => absurd (List.append_cancel_left e) (by decide)

theorem count_ne_hrefs (s : Str) : s ++ "_count".toList ≠ s ++ "_hrefs".toList :=
  fun e => absurd (List.append_cancel_left e) (by decide)

theorem texts_ne_hrefs (s : Str) : s ++ "_texts".toList ≠ s ++ "_hrefs".toList :=
  fun e => absurd (List.append_cancel_left e) (by decide)

theorem selectorWrites_cases (textOnly : Bool) (r : SelectorResult) :
    selectorWrites textOnly r =
        [ (sanitizeSelector r.selector ++ "_count".toList, .num r.count),
          (sanitizeSelector r.selector ++ "_texts".toList,
            .str (cleanForCsv (some (joinWith " | ".toList (allTexts r))))) ] ∨
      selectorWrites textOnly r =
        [ (sanitizeSelector r.selector ++ "_count".toList, .num r.count),
          (sanitizeSelector r.selector ++ "_texts".toList,
            .str (cleanForCsv (some (joinWith " | ".toList (allTexts r))))),
          (sanitizeSelector r.selector ++ "_hrefs".toList,
            .str (cleanForCsv (some (joinWith " | ".toList (allHrefs r))))) ] := by
  unfold selectorWrites
  by_cases hc : textOnly = false ∧ (allHrefs r).length > 0
  · rw [if_pos hc]; exact Or.inr rfl
  · rw [if_neg hc]; exact Or.inl rfl

theorem selectorColumns_nodup (textOnly : Bool) (sd : SelectorResult) :
    (selectorColumns textOnly sd).Nodup := by
  unfold selectorColumns
  split
  · simp only [List.cons_append, List.nil_append, List.nodup_cons, List.mem_cons,
      List.mem_singleton, List.not_mem_nil, or_false, not_or, List.nodup_nil, and_true,
      not_false_eq_true]
    exact ⟨⟨count_ne_texts _, count_ne_hrefs _⟩, texts_ne_hrefs _⟩
  · simp only [List.append_nil, List.nodup_cons, List.mem_singleton, List.not_mem_nil,
      List.nodup_nil, and_true, not_false_eq_true]
    exact count_ne_texts _

theorem selectorColumns_flatMap_nodup (textOnly : Bool) (entries : List (Str × SelectorResult))
    (hd : (entries.map (fun entry => sanitizeSelector entry.2.selector)).Nodup) :
    (entries.flatMap (fun entry => selectorColumns textOnly entry.2)).Nodup := by
  rw [List.nodup_flatMap]
  refine ⟨fun e _ => selectorColumns_nodup _ _, ?_⟩
  rw [List.Nodup, List.pairwise_map] at hd
  refine hd.imp ?_
  intro a b hab
  rw [Function.onFun, List.disjoint_left]
  intro k hka hkb
  obtain ⟨sa, hsa, rfl⟩ := mem_selectorColumns _ _ _ hka
  obtain ⟨sb, hsb, hk⟩ := mem_selectorColumns _ _ _ hkb
  exact hab (column_inj _ _ _ _ hsa hsb hk).1

theorem cleanForCsv_orEmpty (x : Option Str) :
    cleanForCsv (some (orEmpty x)) = cleanedField x := by
  cases x <;> rfl

theorem separateRow_keys (data : PageResult) (sd : SelectorResult) (textOnly : Bool)
    (e : ElementRecord) :
    objectKeys (separateRow data sd textOnly e) =
      if textOnly = true then textOnlyColumns else fullColumns := by
  cases textOnly <;> rfl

/-! ## Sanitising -/

theorem dquote_not_whitespace : isWhitespace dquote = false := by decide

theorem doubleQuotes_append (a b : Str) :
    doubleQuotes (a ++ b) = doubleQuotes a ++ doubleQuotes b := by
  induction a with
  | nil => rfl
  | cons c cs ih =>
    show doubleQuotes (c :: (cs ++ b)) = _
    by_cases h : c = dquote
    · simp [doubleQuotes, h, ih]
    · simp [doubleQuotes, h, ih]

theorem doubleQuotes_reverse (s : Str) : doubleQuotes s.reverse = (doubleQuotes s).reverse := by
  induction s with
  | nil => rfl
  | cons c cs ih =>
    rw [List.reverse_cons, doubleQuotes_append, ih]
    by_cases h : c = dquote
    · simp [doubleQuotes, h]
    · simp [doubleQuotes, h]

theorem doubleQuotes_dropWhile (s : Str) :
    doubleQuotes (s.dropWhile isWhitespace) = (doubleQuotes s).dropWhile isWhitespace := by
  induction s with
  | nil => rfl
  | cons c cs ih =>
    by_cases hw : isWhitespace c = true
    · have hc : c ≠ dquote := by
        rintro rfl
        rw [dquote_not_whitespace] at hw
        exact Bool.noConfusion hw
      simp [doubleQuotes, hc, List.dropWhile_cons, hw, ih]
    · by_cases hc : c = dquote
      · subst hc
        simp [doubleQuotes, List.dropWhile_cons, dquote_not_whitespace]
      · simp [doubleQuotes, hc, List.dropWhile_cons, hw]

theorem doubleQuotes_trim (s : Str) : doubleQuotes (trim s) = trim (doubleQuotes s) := by
  unfold trim
  rw [doubleQuotes_reverse, doubleQuotes_dropWhile, doubleQuotes_reverse, doubleQuotes_dropWhile]

theorem doubleQuotes_collapseAux (inRun : Bool) (s : Str) :
    doubleQuotes (collapseAux inRun s) = collapseAux inRun (doubleQuotes s) := by
  induction s generalizing inRun with
  | nil => rfl
  | cons c cs ih =>
    by_cases hw : isWhitespace c = true
    · have hc : c ≠ dquote := by
        rintro rfl
        rw [dquote_not_whitespace] at hw
        exact Bool.noConfusion hw
      have hs : space ≠ dquote := by decide
      cases inRun <;> simp [doubleQuotes, collapseAux, hw, hc, hs, ih]
    · by_cases hc : c = dquote
      · subst hc
        simp [doubleQuotes, collapseAux, dquote_not_whitespace, ih]
      · simp [doubleQuotes, collapseAux, hw, hc, ih]

theorem replaceNewlines_lf (cs : Str) :
    replaceNewlines (lf :: cs) = space :: replaceNewlines cs := by
  rw [replaceNewlines.eq_def]
  simp

theorem replaceNewlines_cr_nil : replaceNewlines [cr] = [cr] := by decide

theorem replaceNewlines_cr_lf (ds : Str) :
    replaceNewlines (cr :: lf :: ds) = space :: replaceNewlines ds := by
  have h : cr ≠ lf := by decide
  rw [replaceNewlines.eq_def]
  simp [h]

theorem replaceNewlines_cr_other (d : Char) (ds : Str) (h : d ≠ lf) :
    replaceNewlines (cr :: d :: ds) = cr :: replaceNewlines (d :: ds) := by
  have h' : cr ≠ lf := by decide
  rw [replaceNewlines.eq_def]
  simp [h, h']

theorem replaceNewlines_other (c : Char) (cs : Str) (h₁ : c ≠ lf) (h₂ : c ≠ cr) :
    replaceNewlines (c :: cs) = c :: replaceNewlines cs := by
  rw [replaceNewlines.eq_def]
  simp [h₁, h₂]

theorem doubleQuotes_cons_dquote (cs : Str) :
    doubleQuotes (dquote :: cs) = dquote :: dquote :: doubleQuotes cs := by
  rw [doubleQuotes, if_pos rfl]

theorem doubleQuotes_cons_other (c : Char) (cs : Str) (h : c ≠ dquote) :
    doubleQuotes (c :: cs) = c :: doubleQuotes cs := by
  rw [doubleQuotes, if_neg h]

theorem doubleQuotes_replaceNewlines (s : Str) :
    doubleQuotes (replaceNewlines s) = replaceNewlines (doubleQuotes s) := by
  have hs : space ≠ dquote := by decide
  have hl : lf ≠ dquote := by decide
  have hr : cr ≠ dquote := by decide
  have hql : dquote ≠ lf := by decide
  have hqr : dquote ≠ cr := by decide
  induction s using replaceNewlines.induct with
  | case1 => rfl
  | case2 cs ih =>
    rw [replaceNewlines_lf, doubleQuotes_cons_other _ _ hs, doubleQuotes_cons_other _ _ hl,
      replaceNewlines_lf, ih]
  | case3 => decide
  | case4 ds _ ih =>
    rw [replaceNewlines_cr_lf, doubleQuotes_cons_other _ _ hs, doubleQuotes_cons_other _ _ hr,
      doubleQuotes_cons_other _ _ hl, replaceNewlines_cr_lf, ih]
  | case5 d ds hd _ ih =>
    rw [replaceNewlines_cr_other _ _ hd, doubleQuotes_cons_other _ _ hr,
      doubleQuotes_cons_other _ _ hr, ih]
    by_cases hq : d = dquote
    · subst hq
      rw [doubleQuotes_cons_dquote, replaceNewlines_cr_other _ _ hql]
    · rw [doubleQuotes_cons_other _ _ hq, replaceNewlines_cr_other _ _ hd]
  | case6 c cs hc1 hc2 ih =>
    rw [replaceNewlines_other _ _ hc1 hc2]
    by_cases hq : c = dquote
    · subst hq
      rw [doubleQuotes_cons_dquote, doubleQuotes_cons_dquote, replaceNewlines_other _ _ hql hqr,
        replaceNewlines_other _ _ hql hqr, ih]
    · rw [doubleQuotes_cons_other _ _ hq, doubleQuotes_cons_other _ _ hq,
        replaceNewlines_other _ _ hc1 hc2, ih]

theorem cleanForCsv_eq_doubleQuotes (t : Str) :
    cleanForCsv (some t) = doubleQuotes (normalizeWhitespace t) := by
  cases t with
  | nil => rfl
  | cons c cs =>
    show trim (collapseWhitespace (replaceNewlines (doubleQuotes (c :: cs)))) = _
    unfold normalizeWhitespace collapseWhitespace
    rw [doubleQuotes_trim, doubleQuotes_collapseAux, doubleQuotes_replaceNewlines]

/-! ## CSV fields -/

theorem mem_doubleQuotes (s : Str) (c : Char) : c ∈ doubleQuotes s ↔ c ∈ s := by
  induction s with
  | nil => rfl
  | cons d ds ih =>
    by_cases h : d = dquote
    · subst h
      rw [doubleQuotes_cons_dquote]
      simp only [List.mem_cons, ih]
      tauto
    · rw [doubleQuotes_cons_other _ _ h]
      simp only [List.mem_cons, ih]

theorem includesChar_iff (s : Str) (c : Char) : includesChar s c = true ↔ c ∈ s := by
  unfold includesChar
  simp

theorem includesChar_doubleQuotes (s : Str) (c : Char) :
    includesChar (doubleQuotes s) c = includesChar s c := by
  rw [Bool.eq_iff_iff, includesChar_iff, includesChar_iff, mem_doubleQuotes]

theorem doubleQuotes_of_not_mem (s : Str) (h : dquote ∉ s) : doubleQuotes s = s := by
  induction s with
  | nil => rfl
  | cons d ds ih =>
    simp only [List.mem_cons, not_or] at h
    rw [doubleQuotes_cons_other _ _ (fun e => h.1 e.symm), ih h.2]

theorem scalarToString_valueOrEmpty_str (s : Str) :
    scalarToString (valueOrEmpty (some (.str s))) = s := by
  cases s <;> rfl

theorem csvField_str (row : FlatRow) (header s : Str) (h : getProp row header = some (.str s)) :
    csvField row header =
      if includesChar s comma || includesChar s dquote || includesChar s lf then
        [dquote] ++ s ++ [dquote]
      else s := by
  unfold csvField
  simp only [h, scalarToString_valueOrEmpty_str]

theorem csvField_cleaned (row : FlatRow) (header t : Str)
    (h : getProp row header = some (.str (cleanForCsv (some t)))) :
    csvField row header = quotedField (normalizeWhitespace t) := by
  rw [csvField_str row header _ h, cleanForCsv_eq_doubleQuotes]
  unfold quotedField
  simp only [includesChar_doubleQuotes]
  split
  · rfl
  · rename_i hc
    simp only [Bool.or_eq_true, not_or, includesChar_iff] at hc
    exact doubleQuotes_of_not_mem _ hc.1.2

theorem foldl_append_flatten {α β : Type} (f : β → List α) (init : List α) (xs : List β) :
    xs.foldl (fun acc x => acc ++ f x) init = init ++ (xs.map f).flatten := by
  induction xs generalizing init with
  | nil => simp
  | cons x rest ih => rw [List.foldl_cons, ih, List.map_cons, List.flatten_cons, List.append_assoc]

theorem encodeRows_cons (first : FlatRow) (rest : List FlatRow) :
    encodeRows (first :: rest) =
      some (joinWith [comma] (objectKeys first) ++ [lf] ++
        ((first :: rest).map (fun row =>
          joinWith [comma] ((objectKeys first).map (csvField row)) ++ [lf])).flatten) := by
  unfold encodeRows
  simp only []
  rw [foldl_append_flatten (fun row => joinWith [comma] ((objectKeys first).map (csvField row)) ++ [lf])]

theorem saveToCsv_eq (pages : List PageResult) (flattenMode : Str) (textOnly : Bool) :
    saveToCsv (some pages) flattenMode textOnly =
      encodeRows (pages.flatMap (fun data => convertToCsvFormat data flattenMode textOnly)) := by
  cases pages with
  | nil => rfl
  | cons d ds =>
    unfold saveToCsv
    simp only []
    rw [foldl_append_flatten (fun data => convertToCsvFormat data flattenMode textOnly)]
    rfl

theorem csvField_missing (row : FlatRow) (header : Str) (h : getProp row header = none) :
    csvField row header = [] := by
  unfold csvField
  rw [h]
  rfl

theorem csvField_congr (r r' : FlatRow) (header : Str) (h : getProp r header = getProp r' header) :
    csvField r header = csvField r' header := by
  unfold csvField
  rw [h]

/-! ## Reading the written text -/

theorem halveQuotes_doubleQuotes (u : Str) : halveQuotes (doubleQuotes u) = u := by
  induction u with
  | nil => rfl
  | cons c cs ih =>
    by_cases h : c = dquote
    · subst h
      rw [doubleQuotes_cons_dquote, halveQuotes.eq_def]
      simp [ih]
    · rw [doubleQuotes_cons_other _ _ h, halveQuotes.eq_def]
      simp [h, ih]

theorem parseAux_plain_cons (field : Str) (fields : List Str) (c : Char) (cs : Str) :
    parseAux .plain field fields (c :: cs) =
      if c = dquote then parseAux .quoted field fields cs
      else if c = comma then parseAux .plain [] (fields ++ [field]) cs
      else if c = lf then (fields ++ [field]) :: parseAux .plain [] [] cs
      else parseAux .plain (field ++ [c]) fields cs := by
  rw [parseAux]

theorem parseAux_quoted_cons (field : Str) (fields : List Str) (c : Char) (cs : Str) :
    parseAux .quoted field fields (c :: cs) =
      if c = dquote then parseAux .quoteSeen field fields cs
      else parseAux .quoted (field ++ [c]) fields cs := by
  rw [parseAux]

theorem parseAux_quoteSeen_cons (field : Str) (fields : List Str) (c : Char) (cs : Str) :
    parseAux .quoteSeen field fields (c :: cs) =
      if c = dquote then parseAux .quoted (field ++ [dquote]) fields cs
      else if c = comma then parseAux .plain [] (fields ++ [field]) cs
      else if c = lf then (fields ++ [field]) :: parseAux .plain [] [] cs
      else parseAux .plain (field ++ [c]) fields cs := by
  rw [parseAux]

/-- Reading the body of a quoted field and its closing quote. -/
theorem parseAux_quoted_body (u field : Str) (fields : List Str) (rest : Str) :
    parseAux .quoted field fields (doubleQuotes u ++ dquote :: rest) =
      parseAux .quoteSeen (field ++ u) fields rest := by
  induction u generalizing field with
  | nil =>
    show parseAux .quoted field fields (dquote :: rest) = _
    rw [parseAux_quoted_cons, if_pos rfl, List.append_nil]
  | cons c cs ih =>
    by_cases h : c = dquote
    · subst h
      rw [doubleQuotes_cons_dquote]
      show parseAux .quoted field fields (dquote :: dquote :: (doubleQuotes cs ++ dquote :: rest)) = _
      rw [parseAux_quoted_cons, if_pos rfl, parseAux_quoteSeen_cons, if_pos rfl, ih]
      simp
    · rw [doubleQuotes_cons_other _ _ h]
      show parseAux .quoted field fields (c :: (doubleQuotes cs ++ dquote :: rest)) = _
      rw [parseAux_quoted_cons, if_neg h, ih]
      simp

/-- Reading a field without comma, double quote or newline. -/
theorem parseAux_plain_body (v field : Str) (fields : List Str) (rest : Str)
    (hc : comma ∉ v) (hq : dquote ∉ v) (hl : lf ∉ v) :
    parseAux .plain field fields (v ++ rest) = parseAux .plain (field ++ v) fields rest := by
  induction v generalizing field with
  | nil => simp
  | cons c cs ih =>
    simp only [List.mem_cons, not_or] at hc hq hl
    show parseAux .plain field fields (c :: (cs ++ rest)) = _
    rw [parseAux_plain_cons, if_neg (fun e => hq.1 e.symm), if_neg (fun e => hc.1 e.symm),
      if_neg (fun e => hl.1 e.symm), ih _ hc.2 hq.2 hl.2]
    simp

theorem csvField_eq_wrapField (row : FlatRow) (header : Str) :
    csvField row header = wrapField (cellString row header) := rfl

theorem wrapField_of_plain (s : Str) (h : IsPlain s) : wrapField s = s := by
  unfold wrapField
  rw [if_neg]
  simp only [Bool.or_eq_true, includesChar_iff, not_or]
  exact ⟨⟨h.1, h.2.1⟩, h.2.2⟩

theorem wrapField_of_not_plain (s : Str) (h : ¬ IsPlain s) :
    wrapField s = dquote :: (s ++ [dquote]) := by
  unfold wrapField
  rw [if_pos]
  · rfl
  · simp only [Bool.or_eq_true, includesChar_iff]
    unfold IsPlain at h
    by_contra hc
    simp only [not_or] at hc
    exact h ⟨hc.1.1, hc.1.2, hc.2⟩

theorem halveQuotes_of_not_mem (s : Str) (h : dquote ∉ s) : halveQuotes s = s := by
  have := halveQuotes_doubleQuotes s
  rwa [doubleQuotes_of_not_mem s h] at this

theorem quotesDoubled_of_not_mem (s : Str) (h : dquote ∉ s) : QuotesDoubled s := by
  unfold QuotesDoubled
  rw [halveQuotes_of_not_mem s h, doubleQuotes_of_not_mem s h]

theorem quotesDoubled_doubleQuotes (u : Str) : QuotesDoubled (doubleQuotes u) := by
  unfold QuotesDoubled
  rw [halveQuotes_doubleQuotes]

/-- Reading one written field up to the separator after it. -/
theorem parseAux_field (s : Str) (hs : QuotesDoubled s) (fields : List Str) (rest : Str) :
    parseAux .plain [] fields (wrapField s ++ comma :: rest) =
        parseAux .plain [] (fields ++ [halveQuotes s]) rest ∧
      parseAux .plain [] fields (wrapField s ++ lf :: rest) =
        (fields ++ [halveQuotes s]) :: parseAux .plain [] [] rest := by
  have hcq : comma ≠ dquote := by decide
  have hlq : lf ≠ dquote := by decide
  have hlc : lf ≠ comma := by decide
  by_cases hp : IsPlain s
  · rw [wrapField_of_plain s hp, halveQuotes_of_not_mem s hp.2.1]
    constructor
    · rw [parseAux_plain_body s [] fields _ hp.1 hp.2.1 hp.2.2, parseAux_plain_cons,
        if_neg hcq, if_pos rfl]
      rfl
    · rw [parseAux_plain_body s [] fields _ hp.1 hp.2.1 hp.2.2, parseAux_plain_cons,
        if_neg hlq, if_neg hlc, if_pos rfl]
      rfl
  · rw [wrapField_of_not_plain s hp]
    unfold QuotesDoubled at hs
    constructor
    · show parseAux .plain [] fields (dquote :: ((s ++ [dquote]) ++ comma :: rest)) = _
      rw [parseAux_plain_cons, if_pos rfl, List.append_assoc]
      show parseAux .quoted [] fields (s ++ dquote :: comma :: rest) = _
      rw [← hs, parseAux_quoted_body, parseAux_quoteSeen_cons, if_neg hcq, if_pos rfl,
        halveQuotes_doubleQuotes]
      rfl
    · show parseAux .plain [] fields (dquote :: ((s ++ [dquote]) ++ lf :: rest)) = _
      rw [parseAux_plain_cons, if_pos rfl, List.append_assoc]
      show parseAux .quoted [] fields (s ++ dquote :: lf :: rest) = _
      rw [← hs, parseAux_quoted_body, parseAux_quoteSeen_cons, if_neg hlq, if_neg hlc, if_pos rfl,
        halveQuotes_doubleQuotes]
      rfl

/-- Reading one written line. -/
theorem parseAux_line (cells : List Str) (hne : cells ≠ [])
    (hok : ∀ s ∈ cells, QuotesDoubled s) (fields : List Str) (rest : Str) :
    parseAux .plain [] fields (joinWith [comma] (cells.map wrapField) ++ lf :: rest) =
      (fields ++ cells.map halveQuotes) :: parseAux .plain [] [] rest := by
  induction cells generalizing fields with
  | nil => exact absurd rfl hne
  | cons s more ih =>
    cases more with
    | nil =>
      show parseAux .plain [] fields (wrapField s ++ lf :: rest) = _
      rw [(parseAux_field s (hok s (List.mem_cons_self _ _)) fields rest).2]
      rfl
    | cons s' more' =>
      show parseAux .plain [] fields
        ((wrapField s ++ [comma] ++ joinWith [comma] ((s' :: more').map wrapField)) ++ lf :: rest) = _
      rw [List.append_assoc, List.append_assoc]
      show parseAux .plain [] fields
        (wrapField s ++ comma :: (joinWith [comma] ((s' :: more').map wrapField) ++ lf :: rest)) = _
      rw [(parseAux_field s (hok s (List.mem_cons_self _ _)) fields _).1,
        ih (by simp) (fun x hx => hok x (List.mem_cons_of_mem _ hx))]
      simp

/-- Reading a sequence of written lines. -/
theorem parseAux_lines (lines : List (List Str)) (hne : ∀ cells ∈ lines, cells ≠ [])
    (hok : ∀ cells ∈ lines, ∀ s ∈ cells, QuotesDoubled s) :
    parseCsv ((lines.map (fun cells => joinWith [comma] (cells.map wrapField) ++ [lf])).flatten) =
      lines.map (fun cells => cells.map halveQuotes) := by
  unfold parseCsv
  induction lines with
  | nil => rfl
  | cons cells more ih =>
    rw [List.map_cons, List.flatten_cons, List.append_assoc]
    show parseAux .plain [] [] (joinWith [comma] (cells.map wrapField) ++ lf :: _) = _
    rw [parseAux_line cells (hne cells (List.mem_cons_self _ _))
      (hok cells (List.mem_cons_self _ _))]
    show _ :: parseAux .plain [] []
      (List.map (fun cells => joinWith [comma] (List.map wrapField cells) ++ [lf]) more).flatten = _
    rw [ih (fun c hc => hne c (List.mem_cons_of_mem _ hc))
        (fun c hc => hok c (List.mem_cons_of_mem _ hc))]
    rfl

/-! ## Round trip of rows -/

theorem digitChar_plain : ∀ k, k < 10 →
    Nat.digitChar k ≠ comma ∧ Nat.digitChar k ≠ dquote ∧ Nat.digitChar k ≠ lf := by
  decide

theorem toDigitsCore_plain (fuel n : Nat) (ds : List Char)
    (h : ∀ c ∈ ds, c ≠ comma ∧ c ≠ dquote ∧ c ≠ lf) :
    ∀ c ∈ Nat.toDigitsCore 10 fuel n ds, c ≠ comma ∧ c ≠ dquote ∧ c ≠ lf := by
  induction fuel generalizing n ds with
  | zero => exact h
  | succ fuel ih =>
    have hd := digitChar_plain (n % 10) (Nat.mod_lt _ (by decide))
    have h' : ∀ c ∈ Nat.digitChar (n % 10) :: ds, c ≠ comma ∧ c ≠ dquote ∧ c ≠ lf := by
      intro c hc
      rcases List.mem_cons.1 hc with rfl | hc
      · exact hd
      · exact h c hc
    unfold Nat.toDigitsCore
    simp only []
    split
    · exact h'
    · exact ih _ _ h'

theorem toDigits_plain (n : Nat) : IsPlain (Nat.toDigits 10 n) := by
  have := toDigitsCore_plain (n + 1) n [] (by simp)
  exact ⟨fun hc => (this _ hc).1 rfl, fun hc => (this _ hc).2.1 rfl, fun hc => (this _ hc).2.2 rfl⟩

theorem quotesDoubled_nil : QuotesDoubled [] := rfl

theorem quotesDoubled_cleanForCsv (x : Option Str) : QuotesDoubled (cleanForCsv x) := by
  cases x with
  | none => exact quotesDoubled_nil
  | some t =>
    rw [cleanForCsv_eq_doubleQuotes]
    exact quotesDoubled_doubleQuotes _

theorem mem_of_getProp (row : FlatRow) (key : Str) (v : Scalar) (h : getProp row key = some v) :
    (key, v) ∈ row := by
  induction row with
  | nil => simp [getProp] at h
  | cons p rest ih =>
    obtain ⟨k', v'⟩ := p
    by_cases hk : k' = key
    · rw [getProp, if_pos hk] at h
      cases h
      rw [hk]
      exact List.mem_cons_self _ _
    · rw [getProp, if_neg hk] at h
      exact List.mem_cons_of_mem _ (ih h)

theorem cellString_str (row : FlatRow) (header s : Str) (h : getProp row header = some (.str s)) :
    cellString row header = s := by
  unfold cellString
  rw [h, scalarToString_valueOrEmpty_str]

theorem cellString_num (row : FlatRow) (header : Str) (n : Nat) (hn : 0 < n)
    (h : getProp row header = some (.num n)) : cellString row header = Nat.toDigits 10 n := by
  unfold cellString
  rw [h]
  show scalarToString (if n = 0 then .str [] else .num n) = _
  rw [if_neg (Nat.pos_iff_ne_zero.1 hn)]
  rfl

theorem quotesDoubled_cellString (row : FlatRow) (header : Str) (h : RowOK row) :
    QuotesDoubled (cellString row header) := by
  cases hg : getProp row header with
  | none =>
    unfold cellString
    rw [hg]
    exact quotesDoubled_nil
  | some v =>
    cases v with
    | str s =>
      rw [cellString_str _ _ _ hg]
      exact h _ (mem_of_getProp _ _ _ hg)
    | num n =>
      by_cases hn : n = 0
      · subst hn
        unfold cellString
        rw [hg]
        exact quotesDoubled_nil
      · rw [cellString_num _ _ _ (Nat.pos_of_ne_zero hn) hg]
        exact quotesDoubled_of_not_mem _ (toDigits_plain n).2.1

/-- Reading back the text written for a sequence of rows whose header is plain and
whose values have their double quotes doubled. -/
theorem parseCsv_encodeRows (first : FlatRow) (rest : List FlatRow)
    (hne : objectKeys first ≠ []) (hplain : ∀ h ∈ objectKeys first, IsPlain h)
    (hok : ∀ row ∈ first :: rest, RowOK row) :
    ∃ text, encodeRows (first :: rest) = some text ∧
      parseCsv text = objectKeys first ::
        (first :: rest).map (fun row =>
          (objectKeys first).map (fun h => halveQuotes (cellString row h))) := by
  refine ⟨_, encodeRows_cons first rest, ?_⟩
  have e : joinWith [comma] (objectKeys first) ++ [lf] ++
      ((first :: rest).map (fun row =>
        joinWith [comma] ((objectKeys first).map (csvField row)) ++ [lf])).flatten =
      ((objectKeys first :: (first :: rest).map
          (fun row => (objectKeys first).map (cellString row))).map
        (fun cells => joinWith [comma] (cells.map wrapField) ++ [lf])).flatten := by
    have hh : (objectKeys first).map wrapField = objectKeys first := by
      rw [List.map_congr_left (fun h hh => wrapField_of_plain h (hplain h hh))]
      exact List.map_id' _
    simp only [List.map_cons, List.flatten_cons, List.map_map, hh, List.append_assoc,
      Function.comp_def]
    rfl
  rw [e, parseAux_lines]
  · rw [List.map_cons, List.map_map]
    congr 1
    · rw [List.map_congr_left (fun h hh => halveQuotes_of_not_mem h (hplain h hh).2.1)]
      exact List.map_id' _
    · apply List.map_congr_left
      intro row _
      simp only [Function.comp, List.map_map]
      rfl
  · intro cells hc
    rcases List.mem_cons.1 hc with rfl | hc
    · exact hne
    · obtain ⟨row, _, rfl⟩ := List.mem_map.1 hc
      intro hnil
      exact hne (List.map_eq_nil_iff.1 hnil)
  · intro cells hc s hs
    rcases List.mem_cons.1 hc with rfl | hc
    · exact quotesDoubled_of_not_mem s (hplain s hs).2.1
    · obtain ⟨row, hrow, rfl⟩ := List.mem_map.1 hc
      obtain ⟨h, _, rfl⟩ := List.mem_map.1 hs
      exact quotesDoubled_cellString row h (hok row hrow)

/-! ## Rows of a page -/

theorem convert_of_ne_separate (data : PageResult) (flattenMode : Str) (textOnly : Bool)
    (h : flattenMode ≠ "separate".toList) :
    convertToCsvFormat data flattenMode textOnly =
      convertToCsvFormat data "combined".toList textOnly := by
  unfold convertToCsvFormat
  rw [if_neg h, if_neg (by decide)]

theorem isPlain_of_columnChars (s : Str) (h : ∀ c ∈ s, isColumnChar c = true) : IsPlain s := by
  refine ⟨fun hc => ?_, fun hc => ?_, fun hc => ?_⟩
  · exact absurd (h _ hc) (by decide)
  · exact absurd (h _ hc) (by decide)
  · exact absurd (h _ hc) (by decide)

theorem sanitizeSelector_chars (s : Str) : ∀ c ∈ sanitizeSelector s, isColumnChar c = true := by
  have hu : isColumnChar underscore = true := by decide
  induction s with
  | nil => intro c hc; cases hc
  | cons d ds ih =>
    intro c hc
    rw [sanitizeSelector] at hc
    split at hc
    · rename_i hd
      rcases List.mem_cons.1 hc with rfl | hc
      · unfold isColumnChar
        rw [hd]
        rfl
      · exact ih c hc
    · split at hc
      · rcases List.mem_cons.1 hc with rfl | hc
        · exact hu
        · rcases List.mem_cons.1 hc with rfl | hc
          · exact hu
          · exact ih c hc
      · rcases List.mem_cons.1 hc with rfl | hc
        · exact hu
        · exact ih c hc

theorem fixedColumns_chars :
    (∀ h ∈ textOnlyColumns, ∀ c ∈ h, isColumnChar c = true) ∧
      (∀ h ∈ fullColumns, ∀ c ∈ h, isColumnChar c = true) ∧
      (∀ h ∈ columnSuffixes, ∀ c ∈ h, isColumnChar c = true) ∧
      (∀ h ∈ ["url".toList, "timestamp".toList, "page_title".toList],
        ∀ c ∈ h, isColumnChar c = true) := by
  decide

theorem selectorColumns_chars (textOnly : Bool) (sd : SelectorResult) :
    ∀ h ∈ selectorColumns textOnly sd, ∀ c ∈ h, isColumnChar c = true := by
  intro h hh c hc
  obtain ⟨suf, hsuf, rfl⟩ := mem_selectorColumns _ _ _ hh
  rcases List.mem_append.1 hc with hc | hc
  · exact sanitizeSelector_chars _ c hc
  · exact fixedColumns_chars.2.2.1 suf hsuf c hc

theorem separateRow_ok (data : PageResult) (sd : SelectorResult) (textOnly : Bool)
    (e : ElementRecord) (hu : dquote ∉ data.url) (ht : dquote ∉ data.timestamp)
    (hs : dquote ∉ sd.selector) (hg : dquote ∉ e.tagName) :
    RowOK (separateRow data sd textOnly e) := by
  intro kv hkv
  cases textOnly
  · simp only [separateRow, Bool.false_eq_true, if_false, List.mem_cons, List.mem_singleton,
      List.not_mem_nil, or_false] at hkv
    rcases hkv with h | h | h | h | h | h | h | h | h | h | h | h | h | h | h | h | h | h | h <;>
      subst h <;>
      first
        | exact quotesDoubled_cleanForCsv _
        | exact quotesDoubled_of_not_mem _ hu
        | exact quotesDoubled_of_not_mem _ ht
        | exact quotesDoubled_of_not_mem _ hs
        | exact quotesDoubled_of_not_mem _ hg
        | exact trivial
  · simp only [separateRow, if_true, List.mem_cons, List.mem_singleton,
      List.not_mem_nil, or_false] at hkv
    rcases hkv with h | h | h <;> subst h <;>
      first
        | exact quotesDoubled_cleanForCsv _
        | exact quotesDoubled_of_not_mem _ hu
        | exact quotesDoubled_of_not_mem _ hs

theorem rowOK_setProp (row : FlatRow) (k : Str) (v : Scalar) (h : RowOK row) (hv : ScalarOK v) :
    RowOK (setProp row k v) := by
  induction row with
  | nil =>
    intro kv hkv
    rw [setProp, List.mem_singleton] at hkv
    subst hkv
    exact hv
  | cons p rest ih =>
    obtain ⟨k', v'⟩ := p
    have hrest : RowOK rest := fun kv hkv => h kv (List.mem_cons_of_mem _ hkv)
    intro kv hkv
    rw [setProp] at hkv
    split at hkv
    · rcases List.mem_cons.1 hkv with rfl | hkv
      · exact hv
      · exact hrest kv hkv
    · rcases List.mem_cons.1 hkv with rfl | hkv
      · exact h _ (List.mem_cons_self _ _)
      · exact ih hrest kv hkv

theorem rowOK_applyWrites (row : FlatRow) (writes : List (Str × Scalar)) (h : RowOK row)
    (hw : ∀ w ∈ writes, ScalarOK w.2) : RowOK (applyWrites row writes) := by
  induction writes generalizing row with
  | nil => exact h
  | cons w rest ih =>
    show RowOK (applyWrites (setProp row w.1 w.2) rest)
    exact ih _ (rowOK_setProp _ _ _ h (hw w (List.mem_cons_self _ _)))
      (fun x hx => hw x (List.mem_cons_of_mem _ hx))

theorem selectorWrites_ok (textOnly : Bool) (sd : SelectorResult) :
    ∀ w ∈ selectorWrites textOnly sd, ScalarOK w.2 := by
  intro w hw
  rcases selectorWrites_cases textOnly sd with h | h <;> rw [h] at hw <;>
    simp only [List.mem_cons, List.mem_singleton, List.not_mem_nil, or_false] at hw
  · rcases hw with rfl | rfl
    · exact trivial
    · exact quotesDoubled_cleanForCsv _
  · rcases hw with rfl | rfl | rfl
    · exact trivial
    · exact quotesDoubled_cleanForCsv _
    · exact quotesDoubled_cleanForCsv _

/-- The rows of a page have a header of plain column names and values whose double
quotes are all doubled, when the unsanitised columns hold no double quote. -/
theorem convert_rows_ok (data : PageResult) (flattenMode : Str) (textOnly : Bool)
    (hwf : data.WellFormed) (hraw : RawQuoteFree data) :
    ∀ row ∈ convertToCsvFormat data flattenMode textOnly,
      RowOK row ∧ objectKeys row ≠ [] ∧ ∀ h ∈ objectKeys row, IsPlain h := by
  intro row hrow
  by_cases hm : flattenMode = "separate".toList
  · subst hm
    rw [convert_separate_eq data textOnly hwf] at hrow
    obtain ⟨p, hp, rfl⟩ := List.mem_map.1 hrow
    unfold ownedElements at hp
    obtain ⟨entry, hentry, hp⟩ := List.mem_flatMap.1 hp
    obtain ⟨el, hel, rfl⟩ := List.mem_map.1 hp
    refine ⟨separateRow_ok _ _ _ _ hraw.1 hraw.2.1 (hraw.2.2 entry hentry).1
      ((hraw.2.2 entry hentry).2 el hel), ?_, ?_⟩
    · rw [separateRow_keys]
      split <;> decide
    · rw [separateRow_keys]
      intro h hh
      apply isPlain_of_columnChars
      split at hh
      · exact fixedColumns_chars.1 h hh
      · exact fixedColumns_chars.2.1 h hh
  · rw [convert_of_ne_separate _ _ _ hm, convert_combined_eq data textOnly hwf,
      List.mem_singleton] at hrow
    subst hrow
    refine ⟨?_, ?_, ?_⟩
    · intro kv hkv
      rcases List.mem_append.1 hkv with hkv | hkv
      · simp only [baseColumns, List.mem_cons, List.mem_singleton, List.not_mem_nil,
          or_false] at hkv
        rcases hkv with rfl | rfl | rfl
        · exact quotesDoubled_of_not_mem _ hraw.1
        · exact quotesDoubled_of_not_mem _ hraw.2.1
        · exact quotesDoubled_cleanForCsv _
      · refine rowOK_applyWrites [] _ (fun _ h => absurd h (List.not_mem_nil _)) ?_ kv hkv
        intro w hw
        obtain ⟨entry, _, hw⟩ := List.mem_flatMap.1 hw
        exact selectorWrites_ok _ _ w hw
    · simp [objectKeys, baseColumns]
    · intro h hh
      apply isPlain_of_columnChars
      rw [mem_objectKeys_append, objectKeys_applyWrites, mem_foldl_addKey] at hh
      rcases hh with hh | hh | hh
      · exact fixedColumns_chars.2.2.2 h hh
      · simp [objectKeys] at hh
      · rw [List.map_flatMap] at hh
        obtain ⟨entry, _, hh⟩ := List.mem_flatMap.1 hh
        rw [selectorWrites_keys] at hh
        exact selectorColumns_chars _ _ h hh

/-! ## Unsanitised columns -/

/-- The selector column is not sanitised when the row is built, and the encoder wraps
it without doubling its quotes: the selector `a[title="x"]` is written as
`"a[title="x"]"`, which reads back as `a[title=x]`. -/
theorem selector_quotes_not_doubled :
    attrPage.WellFormed ∧
      (convertToCsvFormat attrPage "separate".toList true).map
          (fun row => csvField row "selector".toList) =
        [[dquote] ++ "a[title=".toList ++ [dquote] ++ "x".toList ++ [dquote] ++ "]".toList ++
          [dquote]] ∧
      (saveToCsv (some [attrPage]) "separate".toList true).map parseCsv =
        some [ ["url".toList, "selector".toList, "text_content".toList],
               ["https://example.com/".toList, "a[title=x]".toList, "link".toList] ] := by
  decide

/-! ## Whitespace after sanitising -/

theorem collapseAux_whitespace (inRun : Bool) (s : Str) :
    ∀ c ∈ collapseAux inRun s, isWhitespace c = true → c = space := by
  induction s generalizing inRun with
  | nil => intro c hc; cases hc
  | cons d ds ih =>
    intro c hc hw
    rw [collapseAux] at hc
    split at hc
    · split at hc
      · exact ih _ c hc hw
      · rcases List.mem_cons.1 hc with rfl | hc
        · rfl
        · exact ih _ c hc hw
    · rename_i hd
      rcases List.mem_cons.1 hc with rfl | hc
      · exact absurd hw hd
      · exact ih _ c hc hw

theorem mem_of_mem_trim (s : Str) (c : Char) (h : c ∈ trim s) : c ∈ s := by
  unfold trim at h
  rw [List.mem_reverse] at h
  have h1 := (List.dropWhile_sublist isWhitespace).subset h
  rw [List.mem_reverse] at h1
  exact (List.dropWhile_sublist isWhitespace).subset h1

theorem normalizeWhitespace_whitespace (t : Str) :
    ∀ c ∈ normalizeWhitespace t, isWhitespace c = true → c = space := by
  intro c hc hw
  exact collapseAux_whitespace false _ c (mem_of_mem_trim _ c hc) hw

theorem lf_not_mem_normalizeWhitespace (t : Str) : lf ∉ normalizeWhitespace t := by
  intro h
  exact absurd (normalizeWhitespace_whitespace t lf h (by decide)) (by decide)

/-! ## Decimal positions and keys -/

theorem digitChar_value : ∀ k, k < 10 →
    digitValue (Nat.digitChar k) = k ∧ Nat.digitChar k ≠ underscore := by
  decide

theorem toDigitsCore_value (fuel n : Nat) (ds : List Char) (h : n < fuel) :
    decimalValue (Nat.toDigitsCore 10 fuel n ds) = n * 10 ^ ds.length + decimalValue ds := by
  induction fuel generalizing n ds with
  | zero => exact absurd h (Nat.not_lt_zero _)
  | succ fuel ih =>
    have hd := (digitChar_value (n % 10) (Nat.mod_lt _ (by decide))).1
    unfold Nat.toDigitsCore
    simp only []
    split
    · rename_i h0
      have hn : n % 10 = n := Nat.mod_eq_of_lt (by omega)
      show digitValue (Nat.digitChar (n % 10)) * 10 ^ ds.length + decimalValue ds = _
      rw [hd, hn]
    · rename_i h0
      have hlt : n / 10 < fuel := by omega
      rw [ih (n / 10) (Nat.digitChar (n % 10) :: ds) hlt]
      show n / 10 * 10 ^ (ds.length + 1) +
        (digitValue (Nat.digitChar (n % 10)) * 10 ^ ds.length + decimalValue ds) = _
      rw [hd, pow_succ]
      have e : n * 10 ^ ds.length = (10 * (n / 10) + n % 10) * 10 ^ ds.length := by
        rw [Nat.div_add_mod]
      rw [e]
      ring

theorem decimalValue_toDigits (n : Nat) : decimalValue (Nat.toDigits 10 n) = n := by
  have := toDigitsCore_value (n + 1) n [] (Nat.lt_succ_self n)
  simpa [decimalValue] using this

theorem toDigits_injective (m n : Nat) (h : Nat.toDigits 10 m = Nat.toDigits 10 n) : m = n := by
  rw [← decimalValue_toDigits m, ← decimalValue_toDigits n, h]

theorem toDigitsCore_no_underscore (fuel n : Nat) (ds : List Char) (h : underscore ∉ ds) :
    underscore ∉ Nat.toDigitsCore 10 fuel n ds := by
  induction fuel generalizing n ds with
  | zero => exact h
  | succ fuel ih =>
    have hd := (digitChar_value (n % 10) (Nat.mod_lt _ (by decide))).2
    have h' : underscore ∉ Nat.digitChar (n % 10) :: ds := by
      intro hc
      rcases List.mem_cons.1 hc with hc | hc
      · exact hd hc.symm
      · exact h hc
    unfold Nat.toDigitsCore
    simp only []
    split
    · exact h'
    · exact ih _ _ h'

theorem toDigits_no_underscore (n : Nat) : underscore ∉ Nat.toDigits 10 n :=
  toDigitsCore_no_underscore _ _ _ (List.not_mem_nil _)

/-- Two strings that start with digit strings followed by an underscore are equal only
when the digit strings are. -/
theorem digits_prefix_inj (a b r s : Str) (ha : underscore ∉ a) (hb : underscore ∉ b)
    (h : a ++ underscore :: r = b ++ underscore :: s) : a = b := by
  induction a generalizing b with
  | nil =>
    cases b with
    | nil => rfl
    | cons c cs =>
      simp only [List.nil_append, List.cons_append, List.cons.injEq] at h
      exact absurd (h.1 ▸ List.mem_cons_self _ _) hb
  | cons x xs ih =>
    cases b with
    | nil =>
      simp only [List.nil_append, List.cons_append, List.cons.injEq] at h
      exact absurd (h.1 ▸ List.mem_cons_self _ _) ha
    | cons c cs =>
      simp only [List.cons_append, List.cons.injEq] at h
      rw [h.1, ih cs (fun hm => ha (List.mem_cons_of_mem _ hm))
        (fun hm => hb (List.mem_cons_of_mem _ hm)) h.2]

/-- The key of an entry is `selector_`, the decimal position, an underscore and a rest. -/
theorem selectorEntry_key (doc : Document) (selector : Str) (index : Nat) :
    ∃ r, (selectorEntry doc selector index).1 =
      "selector_".toList ++ (Nat.toDigits 10 (index + 1) ++ underscore :: r) := by
  unfold selectorEntry
  cases doc.query selector with
  | ok elements => exact ⟨sanitizeSelector selector, by simp [underscore]⟩
  | error message => exact ⟨"error".toList, by simp [underscore]⟩

theorem selectorEntry_key_inj (doc : Document) (s₁ s₂ : Str) (i j : Nat)
    (h : (selectorEntry doc s₁ i).1 = (selectorEntry doc s₂ j).1) : i = j := by
  obtain ⟨r₁, h₁⟩ := selectorEntry_key doc s₁ i
  obtain ⟨r₂, h₂⟩ := selectorEntry_key doc s₂ j
  rw [h₁, h₂] at h
  have := digits_prefix_inj _ _ _ _ (toDigits_no_underscore _) (toDigits_no_underscore _)
    (List.append_cancel_left h)
  have := toDigits_injective _ _ this
  omega

/-! ## Extraction pass -/

theorem setEntry_of_not_mem (entries : List (Str × SelectorResult)) (key : Str)
    (value : SelectorResult) (h : key ∉ entries.map Prod.fst) :
    setEntry entries key value = entries ++ [(key, value)] := by
  induction entries with
  | nil => rfl
  | cons p rest ih =>
    obtain ⟨k, v⟩ := p
    simp only [List.map_cons, List.mem_cons, not_or] at h
    have hk : ¬ k = key := fun e => h.1 e.symm
    show setEntry ((k, v) :: rest) key value = (k, v) :: (rest ++ [(key, value)])
    rw [setEntry, if_neg hk, ih h.2]

theorem processSelectors_eq (doc : Document) (index : Nat) (selectors : List Str)
    (entries : List (Str × SelectorResult))
    (h : ∀ e ∈ entries, ∃ j, j < index ∧ ∃ s, e.1 = (selectorEntry doc s j).1) :
    processSelectors doc index selectors entries = entries ++ entriesFrom doc index selectors := by
  induction selectors generalizing index entries with
  | nil => simp [processSelectors, entriesFrom]
  | cons selector rest ih =>
    have hnew : (selectorEntry doc selector index).1 ∉ entries.map Prod.fst := by
      intro hm
      obtain ⟨e, he, hk⟩ := List.mem_map.1 hm
      obtain ⟨j, hj, s, hs⟩ := h e he
      have := selectorEntry_key_inj doc s selector j index (hs.symm.trans hk)
      omega
    show processSelectors doc (index + 1) rest
      (setEntry entries (selectorEntry doc selector index).1 (selectorEntry doc selector index).2) = _
    rw [setEntry_of_not_mem _ _ _ hnew, ih]
    · simp [entriesFrom]
    · intro e he
      rcases List.mem_append.1 he with he | he
      · obtain ⟨j, hj, s, hs⟩ := h e he
        exact ⟨j, by omega, s, hs⟩
      · rw [List.mem_singleton] at he
        subst he
        exact ⟨index, by omega, selector, rfl⟩

theorem extractPage_entries (doc : Document) (url timestamp : Str) (selectors : List Str) :
    (extractPage doc url timestamp selectors).selectorResults =
      entriesFrom doc 0 (effectiveSelectors selectors) := by
  show processSelectors doc 0 (effectiveSelectors selectors) [] = _
  rw [processSelectors_eq doc 0 _ [] (fun e he => absurd he (List.not_mem_nil e))]
  rfl

theorem entriesFrom_eq_enumFrom (doc : Document) (index : Nat) (selectors : List Str) :
    entriesFrom doc index selectors =
      (List.enumFrom index selectors).map (fun p => selectorEntry doc p.2 p.1) := by
  induction selectors generalizing index with
  | nil => rfl
  | cons s rest ih =>
    show selectorEntry doc s index :: entriesFrom doc (index + 1) rest = _
    rw [ih]
    rfl

theorem length_normalizeFrom (i : Nat) (nodes : List Node) :
    (normalizeFrom i nodes).length = nodes.length := by
  induction nodes generalizing i with
  | nil => rfl
  | cons n rest ih =>
    show (normalizeFrom (i + 1) rest).length + 1 = rest.length + 1
    rw [ih]

theorem getElem?_normalizeFrom (i j : Nat) (nodes : List Node) :
    (normalizeFrom i nodes)[j]? = (nodes[j]?).map (normalizeElement (i + j)) := by
  induction nodes generalizing i j with
  | nil => rfl
  | cons n rest ih =>
    cases j with
    | zero => simp [normalizeFrom]
    | succ j =>
      simp only [normalizeFrom, List.getElem?_cons_succ]
      rw [ih, show i + 1 + j = i + (j + 1) by omega]

theorem normalizeElement_base (i : Nat) (element : Node) :
    (normalizeElement i element).index = i ∧
      (normalizeElement i element).tagName = element.tagName ∧
      (normalizeElement i element).text = trim element.text ∧
      (normalizeElement i element).html = element.html := by
  unfold normalizeElement
  simp only []
  split
  · exact ⟨rfl, rfl, rfl, rfl⟩
  · split
    · exact ⟨rfl, rfl, rfl, rfl⟩
    · split
      · exact ⟨rfl, rfl, rfl, rfl⟩
      · split <;> exact ⟨rfl, rfl, rfl, rfl⟩

/-- The selector result stored for a selector: the normal shape when the query gives
nodes, the error shape with the message of the fault when it raises. -/
theorem selectorEntry_value (doc : Document) (selector : Str) (index : Nat) :
    (selectorEntry doc selector index).2 =
      match doc.query selector with
      | .ok nodes =>
        { selector := selector, count := nodes.length, elements := normalizeFrom 0 nodes }
      | .error message =>
        { selector := selector, error := some message, count := 0, elements := [] } := by
  unfold selectorEntry
  cases doc.query selector with
  | ok nodes => simp [length_normalizeFrom]
  | error message => rfl

theorem selectorEntry_isSelectorKey (doc : Document) (selector : Str) (index : Nat) :
    isSelectorKey (selectorEntry doc selector index).1 = true := by
  obtain ⟨r, hr⟩ := selectorEntry_key doc selector index
  rw [hr]
  unfold isSelectorKey
  rw [List.isPrefixOf_iff_prefix]
  exact List.prefix_append _ _

theorem entriesFrom_keys_ge (doc : Document) (index : Nat) (selectors : List Str) :
    ∀ e ∈ entriesFrom doc index selectors, ∃ j, index ≤ j ∧ ∃ s, e.1 = (selectorEntry doc s j).1 := by
  induction selectors generalizing index with
  | nil => intro e he; cases he
  | cons s rest ih =>
    intro e he
    rcases List.mem_cons.1 he with rfl | he
    · exact ⟨index, le_refl _, s, rfl⟩
    · obtain ⟨j, hj, s', hs'⟩ := ih (index + 1) e he
      exact ⟨j, by omega, s', hs'⟩

theorem entriesFrom_wellFormed (doc : Document) (index : Nat) (selectors : List Str) :
    (∀ e ∈ entriesFrom doc index selectors, isSelectorKey e.1 = true) ∧
      ((entriesFrom doc index selectors).map Prod.fst).Nodup := by
  induction selectors generalizing index with
  | nil => exact ⟨fun e he => absurd he (List.not_mem_nil e), List.nodup_nil⟩
  | cons s rest ih =>
    obtain ⟨h1, h2⟩ := ih (index + 1)
    constructor
    · intro e he
      rcases List.mem_cons.1 he with rfl | he
      · exact selectorEntry_isSelectorKey _ _ _
      · exact h1 e he
    · show ((selectorEntry doc s index).1 :: (entriesFrom doc (index + 1) rest).map Prod.fst).Nodup
      rw [List.nodup_cons]
      refine ⟨?_, h2⟩
      intro hm
      obtain ⟨e, he, hk⟩ := List.mem_map.1 hm
      obtain ⟨j, hj, s', hs'⟩ := entriesFrom_keys_ge doc (index + 1) rest e he
      have := selectorEntry_key_inj doc s' s j index (hs'.symm.trans hk)
      omega

/-- The page built by the extraction pass is well formed. -/
theorem extractPage_wellFormed (doc : Document) (url timestamp : Str) (selectors : List Str) :
    (extractPage doc url timestamp selectors).WellFormed := by
  unfold PageResult.WellFormed
  rw [extractPage_entries]
  exact entriesFrom_wellFormed doc 0 _

/-! ## Matched nodes -/

theorem selectorEntry_matched (doc : Document) (selector : Str) (index : Nat) :
    (selectorEntry doc selector index).2.selector = selector ∧
      ∀ nodes : List Node, doc.query selector = .ok nodes →
        (selectorEntry doc selector index).2.count = nodes.length ∧
        (selectorEntry doc selector index).2.elements.length = nodes.length ∧
        (∀ (j : Nat) (node : Node), nodes[j]? = some node →
          ∃ el : ElementRecord, (selectorEntry doc selector index).2.elements[j]? = some el ∧ el.index = j ∧
            el.tagName = node.tagName ∧ el.text = trim node.text ∧ el.html = node.html) ∧
        (nodes = [] →
          (selectorEntry doc selector index).2.count = 0 ∧
          (selectorEntry doc selector index).2.elements = [] ∧
          ∀ (data : PageResult) (textOnly : Bool) (csvRows : List FlatRow),
            separateStep data textOnly csvRows (selectorEntry doc selector index) = csvRows) := by
  rw [selectorEntry_value]
  constructor
  · cases doc.query selector <;> rfl
  · intro nodes hq
    rw [hq]
    refine ⟨rfl, length_normalizeFrom 0 nodes, ?_, ?_⟩
    · intro j node hj
      refine ⟨normalizeElement j node, ?_, normalizeElement_base j node⟩
      show (normalizeFrom 0 nodes)[j]? = _
      rw [getElem?_normalizeFrom, hj, Nat.zero_add]
      rfl
    · rintro rfl
      refine ⟨rfl, rfl, ?_⟩
      intro data textOnly csvRows
      unfold separateStep selectorEntry
      rw [hq]
      simp [normalizeFrom]

/-! ## Batch loop -/

theorem batchLoop_results (world : World) (selectors : List Str) (delay n : Nat) (i : Nat)
    (urls : List Str) :
    (batchLoop world selectors delay n i urls).1 =
      (List.enumFrom i urls).filterMap (fun p => pageOf (scrapeUrl world p.1 p.2 selectors)) := by
  induction urls generalizing i with
  | nil => rfl
  | cons url rest ih =>
    rw [List.enumFrom_cons, List.filterMap_cons, ← ih (i + 1)]
    show (batchLoop world selectors delay n i (url :: rest)).1 = _
    rw [batchLoop]
    cases h : scrapeUrl world i url selectors with
    | error e => rfl
    | ok data =>
      simp only [pageOf]
      split <;> rfl

theorem batchLoop_trace (world : World) (selectors : List Str) (delay n : Nat) (i : Nat)
    (urls : List Str) :
    (batchLoop world selectors delay n i urls).2 =
      (List.enumFrom i urls).flatMap (fun p =>
        Event.process p.1 p.2 ::
          (if (pageOf (scrapeUrl world p.1 p.2 selectors)).isSome = true ∧ delay > 0 ∧
              p.1 < n - 1 then
            [Event.suspend delay]
          else [])) := by
  induction urls generalizing i with
  | nil => rfl
  | cons url rest ih =>
    rw [List.enumFrom_cons, List.flatMap_cons, ← ih (i + 1)]
    show (batchLoop world selectors delay n i (url :: rest)).2 = _
    rw [batchLoop]
    cases h : scrapeUrl world i url selectors with
    | error e => simp [pageOf]
    | ok data =>
      by_cases hc : delay > 0 ∧ i < n - 1
      · simp [pageOf, hc]
      · simp only [pageOf, Option.isSome_some, true_and, hc, if_false]
        rfl

theorem delayOf_pos (d : Nat) (h : 0 < d) : delayOf (some d) = d := by
  unfold delayOf
  simp only []
  rw [if_neg (Nat.pos_iff_ne_zero.1 h)]

theorem suspend_count (l : List (Nat × Str)) (c : Nat × Str → Bool) (d : Nat) :
    ((l.flatMap (fun p => Event.process p.1 p.2 ::
        (if c p = true then [Event.suspend d] else []))).filter isSuspend).length =
      (l.filter c).length := by
  induction l with
  | nil => rfl
  | cons p rest ih =>
    rw [List.flatMap_cons, List.filter_append, List.length_append, ih]
    by_cases hc : c p = true
    · simp [hc, isSuspend, List.filter_cons]
      omega
    · simp [hc, isSuspend, List.filter_cons]

/-! ## Empty output and column names -/

theorem encodeRows_eq_none_iff (rows : List FlatRow) : encodeRows rows = none ↔ rows = [] := by
  cases rows with
  | nil => exact ⟨fun _ => rfl, fun _ => rfl⟩
  | cons first rest =>
    rw [encodeRows_cons]
    exact ⟨fun h => Option.noConfusion h, fun h => List.noConfusion h⟩

theorem convert_separate_eq_nil_iff (data : PageResult) (textOnly : Bool) (h : data.WellFormed) :
    convertToCsvFormat data "separate".toList textOnly = [] ↔
      ∀ entry ∈ data.selectorResults, entry.2.elements = [] := by
  rw [convert_separate_eq data textOnly h, List.map_eq_nil_iff]
  unfold ownedElements
  rw [List.flatMap_eq_nil_iff]
  constructor
  · intro hh entry he
    exact List.map_eq_nil_iff.1 (hh entry he)
  · intro hh entry he
    exact List.map_eq_nil_iff.2 (hh entry he)

theorem combined_rows (pages : List PageResult) (textOnly : Bool)
    (hwf : ∀ data ∈ pages, data.WellFormed) :
    ∃ rows : List FlatRow,
      List.Forall₂ (fun data row => convertToCsvFormat data "combined".toList textOnly = [row])
        pages rows ∧
      pages.flatMap (fun data => convertToCsvFormat data "combined".toList textOnly) = rows := by
  induction pages with
  | nil => exact ⟨[], List.Forall₂.nil, rfl⟩
  | cons d ds ih =>
    obtain ⟨rows, h1, h2⟩ := ih (fun x hx => hwf x (List.mem_cons_of_mem _ hx))
    have hd := convert_combined_eq d textOnly (hwf d (List.mem_cons_self _ _))
    refine ⟨_ :: rows, List.Forall₂.cons hd h1, ?_⟩
    rw [List.flatMap_cons, hd, h2]
    rfl

theorem convert_row_keys_chars (data : PageResult) (flattenMode : Str) (textOnly : Bool)
    (hwf : data.WellFormed) :
    ∀ row ∈ convertToCsvFormat data flattenMode textOnly,
      ∀ k ∈ objectKeys row, ∀ c ∈ k, isColumnChar c = true := by
  intro row hrow
  by_cases hm : flattenMode = "separate".toList
  · subst hm
    rw [convert_separate_eq data textOnly hwf] at hrow
    obtain ⟨p, _, rfl⟩ := List.mem_map.1 hrow
    rw [separateRow_keys]
    intro h hh
    split at hh
    · exact fixedColumns_chars.1 h hh
    · exact fixedColumns_chars.2.1 h hh
  · rw [convert_of_ne_separate _ _ _ hm, convert_combined_eq data textOnly hwf,
      List.mem_singleton] at hrow
    subst hrow
    intro h hh
    rw [mem_objectKeys_append, objectKeys_applyWrites, mem_foldl_addKey] at hh
    rcases hh with hh | hh | hh
    · exact fixedColumns_chars.2.2.2 h hh
    · simp [objectKeys] at hh
    · rw [List.map_flatMap] at hh
      obtain ⟨entry, _, hh⟩ := List.mem_flatMap.1 hh
      rw [selectorWrites_keys] at hh
      exact selectorColumns_chars _ _ h hh

theorem joinWith_comma (keys : List Str) (hk : ∀ k ∈ keys, ∀ c ∈ k, isColumnChar c = true) :
    (∀ c ∈ joinWith [comma] keys, c = comma ∨ isColumnChar c = true) ∧
      (joinWith [comma] keys).count comma = keys.length - 1 := by
  have hcount : ∀ k : Str, (∀ c ∈ k, isColumnChar c = true) → k.count comma = 0 := by
    intro k hk'
    rw [List.count_eq_zero]
    intro hc
    exact absurd (hk' _ hc) (by decide)
  induction keys with
  | nil => exact ⟨fun c hc => absurd hc (List.not_mem_nil c), rfl⟩
  | cons k rest ih =>
    cases rest with
    | nil =>
      refine ⟨fun c hc => Or.inr (hk k (List.mem_cons_self _ _) c hc), ?_⟩
      show k.count comma = 0
      exact hcount k (hk k (List.mem_cons_self _ _))
    | cons k' rest' =>
      obtain ⟨h1, h2⟩ := ih (fun x hx => hk x (List.mem_cons_of_mem _ hx))
      constructor
      · intro c hc
        change c ∈ k ++ [comma] ++ joinWith [comma] (k' :: rest') at hc
        rcases List.mem_append.1 hc with hc | hc
        · rcases List.mem_append.1 hc with hc | hc
          · exact Or.inr (hk k (List.mem_cons_self _ _) c hc)
          · exact Or.inl (List.mem_singleton.1 hc)
        · exact h1 c hc
      · show (k ++ [comma] ++ joinWith [comma] (k' :: rest')).count comma = _
        rw [List.count_append, List.count_append, h2, hcount k (hk k (List.mem_cons_self _ _))]
        simp
        omega

/-! ## Line breaks in rows -/

theorem cleanForCsv_no_line_break (x : Option Str) :
    lf ∉ cleanForCsv x ∧ cr ∉ cleanForCsv x := by
  cases x with
  | none => exact ⟨List.not_mem_nil _, List.not_mem_nil _⟩
  | some t =>
    rw [cleanForCsv_eq_doubleQuotes]
    constructor
    · intro h
      rw [mem_doubleQuotes] at h
      exact absurd (normalizeWhitespace_whitespace t lf h (by decide)) (by decide)
    · intro h
      rw [mem_doubleQuotes] at h
      exact absurd (normalizeWhitespace_whitespace t cr h (by decide)) (by decide)

theorem all_setProp (P : Str × Scalar → Prop) (row : FlatRow) (k : Str) (v : Scalar)
    (h : ∀ kv ∈ row, P kv) (hv : P (k, v)) : ∀ kv ∈ setProp row k v, P kv := by
  induction row with
  | nil =>
    intro kv hkv
    rw [setProp, List.mem_singleton] at hkv
    subst hkv
    exact hv
  | cons p rest ih =>
    obtain ⟨k', v'⟩ := p
    have hrest : ∀ kv ∈ rest, P kv := fun kv hkv => h kv (List.mem_cons_of_mem _ hkv)
    intro kv hkv
    rw [setProp] at hkv
    split at hkv
    · rename_i hk
      rcases List.mem_cons.1 hkv with rfl | hkv
      · rw [hk]
        exact hv
      · exact hrest kv hkv
    · rcases List.mem_cons.1 hkv with rfl | hkv
      · exact h _ (List.mem_cons_self _ _)
      · exact ih hrest kv hkv

theorem all_applyWrites (P : Str × Scalar → Prop) (row : FlatRow) (writes : List (Str × Scalar))
    (h : ∀ kv ∈ row, P kv) (hw : ∀ w ∈ writes, P w) : ∀ kv ∈ applyWrites row writes, P kv := by
  induction writes generalizing row with
  | nil => exact h
  | cons w rest ih =>
    show ∀ kv ∈ applyWrites (setProp row w.1 w.2) rest, P kv
    exact ih _ (all_setProp P _ _ _ h (hw w (List.mem_cons_self _ _)))
      (fun x hx => hw x (List.mem_cons_of_mem _ hx))

/-- Every entry of every row of a page is an unsanitised value of the page under its
column, a sanitised string, or a number. -/
theorem convert_rows_all (P : Str × Scalar → Prop) (data : PageResult) (flattenMode : Str)
    (textOnly : Bool) (hwf : data.WellFormed)
    (hurl : P ("url".toList, .str data.url))
    (htime : P ("timestamp".toList, .str data.timestamp))
    (hsel : ∀ entry ∈ data.selectorResults, P ("selector".toList, .str entry.2.selector))
    (htag : ∀ entry ∈ data.selectorResults, ∀ el ∈ entry.2.elements,
      P ("tag_name".toList, .str el.tagName))
    (hclean : ∀ (k : Str) (x : Option Str), P (k, .str (cleanForCsv x)))
    (hnum : ∀ (k : Str) (n : Nat), P (k, .num n)) :
    ∀ row ∈ convertToCsvFormat data flattenMode textOnly, ∀ kv ∈ row, P kv := by
  intro row hrow
  by_cases hm : flattenMode = "separate".toList
  · subst hm
    rw [convert_separate_eq data textOnly hwf] at hrow
    obtain ⟨p, hp, rfl⟩ := List.mem_map.1 hrow
    unfold ownedElements at hp
    obtain ⟨entry, hentry, hp⟩ := List.mem_flatMap.1 hp
    obtain ⟨el, hel, rfl⟩ := List.mem_map.1 hp
    intro kv hkv
    cases textOnly
    · simp only [separateRow, Bool.false_eq_true, if_false, List.mem_cons, List.mem_singleton,
        List.not_mem_nil, or_false] at hkv
      rcases hkv with h | h | h | h | h | h | h | h | h | h | h | h | h | h | h | h | h | h | h <;>
        subst h <;>
        first
          | exact hclean _ _
          | exact hurl
          | exact htime
          | exact hsel entry hentry
          | exact htag entry hentry el hel
          | exact hnum _ _
    · simp only [separateRow, if_true, List.mem_cons, List.mem_singleton,
        List.not_mem_nil, or_false] at hkv
      rcases hkv with h | h | h <;> subst h <;>
        first
          | exact hclean _ _
          | exact hurl
          | exact hsel entry hentry
  · rw [convert_of_ne_separate _ _ _ hm, convert_combined_eq data textOnly hwf,
      List.mem_singleton] at hrow
    subst hrow
    intro kv hkv
    rcases List.mem_append.1 hkv with hkv | hkv
    · simp only [baseColumns, List.mem_cons, List.mem_singleton, List.not_mem_nil,
        or_false] at hkv
      rcases hkv with rfl | rfl | rfl
      · exact hurl
      · exact htime
      · exact hclean _ _
    · refine all_applyWrites P [] _ (fun _ h => absurd h (List.not_mem_nil _)) ?_ kv hkv
      intro w hw
      obtain ⟨entry, _, hw⟩ := List.mem_flatMap.1 hw
      rcases selectorWrites_cases textOnly entry.2 with h | h <;> rw [h] at hw <;>
        simp only [List.mem_cons, List.mem_singleton, List.not_mem_nil, or_false] at hw
      · rcases hw with rfl | rfl
        · exact hnum _ _
        · exact hclean _ _
      · rcases hw with rfl | rfl | rfl
        · exact hnum _ _
        · exact hclean _ _
        · exact hclean _ _

theorem lf_not_mem_csvField (row : FlatRow) (header : Str)
    (h : ∀ kv ∈ row, ∀ v, kv.2 = Scalar.str v → lf ∉ v) : lf ∉ csvField row header := by
  have hcell : lf ∉ cellString row header := by
    cases hg : getProp row header with
    | none =>
      unfold cellString
      rw [hg]
      exact List.not_mem_nil _
    | some v =>
      cases v with
      | str s =>
        rw [cellString_str _ _ _ hg]
        exact h _ (mem_of_getProp _ _ _ hg) s rfl
      | num n =>
        by_cases hn : n = 0
        · subst hn
          unfold cellString
          rw [hg]
          exact List.not_mem_nil _
        · rw [cellString_num _ _ _ (Nat.pos_of_ne_zero hn) hg]
          exact (toDigits_plain n).2.2
  rw [csvField_eq_wrapField]
  unfold wrapField
  have hq : lf ≠ dquote := by decide
  split
  · intro hm
    simp only [List.mem_append, List.mem_singleton, List.mem_cons, List.not_mem_nil,
      or_false] at hm
    rcases hm with (hm | hm) | hm
    · exact hq hm
    · exact hcell hm
    · exact hq hm
  · exact hcell

/-! ## Normal form of sanitised text -/

theorem quoteRunsAux_dquote (current : Nat) (cs : Str) :
    quoteRunsAux current (dquote :: cs) = quoteRunsAux (current + 1) cs := by
  rw [quoteRunsAux, if_pos rfl]

theorem quoteRunsAux_other (current : Nat) (c : Char) (cs : Str) (h : c ≠ dquote) :
    quoteRunsAux current (c :: cs) = quoteRunsAux current [] ++ quoteRunsAux 0 cs := by
  by_cases h0 : current = 0
  · simp [h0, h, quoteRunsAux]
  · simp [h0, h, quoteRunsAux]

theorem quoteRunsAux_doubleQuotes (current : Nat) (s : Str) :
    quoteRunsAux (2 * current) (doubleQuotes s) =
      (quoteRunsAux current s).map (fun n => 2 * n) := by
  induction s generalizing current with
  | nil =>
    show quoteRunsAux (2 * current) [] = _
    by_cases h0 : current = 0
    · simp [h0, quoteRunsAux]
    · have : 2 * current ≠ 0 := by omega
      simp [h0, this, quoteRunsAux]
  | cons c cs ih =>
    by_cases h : c = dquote
    · subst h
      rw [doubleQuotes_cons_dquote, quoteRunsAux_dquote, quoteRunsAux_dquote, quoteRunsAux_dquote,
        ← ih (current + 1)]
      rfl
    · rw [doubleQuotes_cons_other _ _ h, quoteRunsAux_other _ _ _ h, quoteRunsAux_other _ _ _ h,
        List.map_append, ← ih 0]
      congr 1
      by_cases h0 : current = 0
      · simp [h0, quoteRunsAux]
      · have : 2 * current ≠ 0 := by omega
        simp [h0, this, quoteRunsAux]

theorem quoteRunsAux_replaceNewlines (s : Str) :
    ∀ current, quoteRunsAux current (replaceNewlines s) = quoteRunsAux current s := by
  have hs : space ≠ dquote := by decide
  have hl : lf ≠ dquote := by decide
  have hr : cr ≠ dquote := by decide
  induction s using replaceNewlines.induct with
  | case1 => intro current; rfl
  | case2 cs ih =>
    intro current
    rw [replaceNewlines_lf, quoteRunsAux_other _ _ _ hs, quoteRunsAux_other _ _ _ hl, ih]
  | case3 => intro current; rw [replaceNewlines_cr_nil]
  | case4 ds _ ih =>
    intro current
    rw [replaceNewlines_cr_lf, quoteRunsAux_other _ _ _ hs, quoteRunsAux_other _ _ _ hr,
      quoteRunsAux_other _ _ _ hl, ih]
    rfl
  | case5 d ds hd _ ih =>
    intro current
    rw [replaceNewlines_cr_other _ _ hd, quoteRunsAux_other _ _ _ hr,
      quoteRunsAux_other _ _ _ hr, ih]
  | case6 c cs hc1 hc2 ih =>
    intro current
    rw [replaceNewlines_other _ _ hc1 hc2]
    by_cases hq : c = dquote
    · subst hq
      rw [quoteRunsAux_dquote, quoteRunsAux_dquote, ih]
    · rw [quoteRunsAux_other _ _ _ hq, quoteRunsAux_other _ _ _ hq, ih]

theorem not_dquote_of_whitespace (c : Char) (h : isWhitespace c = true) : c ≠ dquote := by
  rintro rfl
  rw [dquote_not_whitespace] at h
  exact Bool.noConfusion h

theorem quoteRunsAux_collapseAux (s : Str) :
    (∀ current, quoteRunsAux current (collapseAux false s) = quoteRunsAux current s) ∧
      quoteRunsAux 0 (collapseAux true s) = quoteRunsAux 0 s := by
  have hs : space ≠ dquote := by decide
  induction s with
  | nil => exact ⟨fun _ => rfl, rfl⟩
  | cons c cs ih =>
    by_cases hw : isWhitespace c = true
    · have hc := not_dquote_of_whitespace c hw
      constructor
      · intro current
        rw [collapseAux, if_pos hw]
        simp only [Bool.false_eq_true, if_false]
        rw [quoteRunsAux_other _ _ _ hs, quoteRunsAux_other _ _ _ hc, ih.2]
      · rw [collapseAux, if_pos hw]
        simp only [if_true]
        rw [quoteRunsAux_other _ _ _ hc, ih.2]
        rfl
    · have e : ∀ b, collapseAux b (c :: cs) = c :: collapseAux false cs := by
        intro b
        rw [collapseAux, if_neg hw]
      constructor
      · intro current
        rw [e]
        by_cases hq : c = dquote
        · subst hq
          rw [quoteRunsAux_dquote, quoteRunsAux_dquote, ih.1]
        · rw [quoteRunsAux_other _ _ _ hq, quoteRunsAux_other _ _ _ hq, ih.1]
      · rw [e]
        by_cases hq : c = dquote
        · subst hq
          rw [quoteRunsAux_dquote, quoteRunsAux_dquote, ih.1]
        · rw [quoteRunsAux_other _ _ _ hq, quoteRunsAux_other _ _ _ hq, ih.1]

theorem quoteRunsAux_dropWhile (s : Str) :
    quoteRunsAux 0 (s.dropWhile isWhitespace) = quoteRunsAux 0 s := by
  induction s with
  | nil => rfl
  | cons c cs ih =>
    by_cases hw : isWhitespace c = true
    · rw [List.dropWhile_cons_of_pos hw, ih,
        quoteRunsAux_other _ _ _ (not_dquote_of_whitespace c hw)]
      rfl
    · rw [List.dropWhile_cons_of_neg hw]

theorem quoteRunsAux_no_quote (current : Nat) (w : Str) (h : ∀ c ∈ w, c ≠ dquote) :
    quoteRunsAux current w = quoteRunsAux current [] := by
  induction w generalizing current with
  | nil => rfl
  | cons c cs ih =>
    rw [quoteRunsAux_other _ _ _ (h c (List.mem_cons_self _ _)),
      ih 0 (fun x hx => h x (List.mem_cons_of_mem _ hx))]
    simp [quoteRunsAux]

theorem quoteRunsAux_append_no_quote (current : Nat) (a w : Str) (h : ∀ c ∈ w, c ≠ dquote) :
    quoteRunsAux current (a ++ w) = quoteRunsAux current a := by
  induction a generalizing current with
  | nil => exact quoteRunsAux_no_quote current w h
  | cons c cs ih =>
    show quoteRunsAux current (c :: (cs ++ w)) = _
    by_cases hq : c = dquote
    · subst hq
      rw [quoteRunsAux_dquote, quoteRunsAux_dquote, ih]
    · rw [quoteRunsAux_other _ _ _ hq, quoteRunsAux_other _ _ _ hq, ih]

theorem trim_append_whitespace (s : Str) :
    ∃ w : Str, (∀ c ∈ w, isWhitespace c = true) ∧ s.dropWhile isWhitespace = trim s ++ w := by
  refine ⟨((s.dropWhile isWhitespace).reverse.takeWhile isWhitespace).reverse, ?_, ?_⟩
  · intro c hc
    rw [List.mem_reverse] at hc
    exact List.mem_takeWhile_imp hc
  · unfold trim
    rw [← List.reverse_append, List.takeWhile_append_dropWhile, List.reverse_reverse]

theorem quoteRuns_trim (s : Str) : quoteRuns (trim s) = quoteRuns s := by
  obtain ⟨w, hw, he⟩ := trim_append_whitespace s
  unfold quoteRuns
  rw [← quoteRunsAux_dropWhile s, he,
    quoteRunsAux_append_no_quote 0 _ w (fun c hc => not_dquote_of_whitespace c (hw c hc))]

theorem quoteRuns_cleanForCsv (t : Str) :
    quoteRuns (cleanForCsv (some t)) = (quoteRuns t).map (fun n => 2 * n) := by
  rw [cleanForCsv_eq_doubleQuotes]
  unfold quoteRuns
  have := quoteRunsAux_doubleQuotes 0 (normalizeWhitespace t)
  rw [Nat.mul_zero] at this
  rw [this]
  congr 1
  show quoteRuns (trim (collapseAux false (replaceNewlines t))) = quoteRuns t
  rw [quoteRuns_trim]
  unfold quoteRuns
  rw [(quoteRunsAux_collapseAux _).1, quoteRunsAux_replaceNewlines]

theorem cleanForCsv_some_eq (t : Str) :
    cleanForCsv (some t) = trim (collapseWhitespace (replaceNewlines (doubleQuotes t))) := by
  cases t <;> rfl

theorem head_dropWhile_whitespace (s : Str) (c : Char)
    (h : (s.dropWhile isWhitespace).head? = some c) : isWhitespace c = false := by
  have := List.head?_dropWhile_not isWhitespace s
  rw [h] at this
  exact this

theorem trim_head (s : Str) (c : Char) (h : (trim s).head? = some c) :
    isWhitespace c = false := by
  have hp : trim s <+: s.dropWhile isWhitespace := List.rdropWhile_prefix isWhitespace _
  obtain ⟨w, hw⟩ := hp
  apply head_dropWhile_whitespace s c
  rw [← hw]
  cases hts : trim s with
  | nil => rw [hts] at h; cases h
  | cons a l =>
    rw [hts] at h
    exact h

theorem trim_last (s : Str) (c : Char) (h : (trim s).getLast? = some c) :
    isWhitespace c = false := by
  unfold trim at h
  rw [List.getLast?_reverse] at h
  exact head_dropWhile_whitespace _ c h

theorem trim_contiguous (s : Str) : trim s <:+: s :=
  (List.rdropWhile_prefix isWhitespace (s.dropWhile isWhitespace)).isInfix.trans
    (List.dropWhile_suffix isWhitespace).isInfix

theorem collapseAux_chain (s : Str) :
    List.Chain' (fun a b => ¬ (isWhitespace a = true ∧ isWhitespace b = true))
        (collapseAux false s) ∧
      List.Chain' (fun a b => ¬ (isWhitespace a = true ∧ isWhitespace b = true))
        (collapseAux true s) ∧
      ∀ c, (collapseAux true s).head? = some c → isWhitespace c = false := by
  induction s with
  | nil => exact ⟨List.chain'_nil, List.chain'_nil, fun c h => by cases h⟩
  | cons d ds ih =>
    by_cases hw : isWhitespace d = true
    · have e1 : collapseAux false (d :: ds) = space :: collapseAux true ds := by
        rw [collapseAux, if_pos hw]
        rfl
      have e2 : collapseAux true (d :: ds) = collapseAux true ds := by
        rw [collapseAux, if_pos hw]
        rfl
      rw [e1, e2]
      refine ⟨?_, ih.2.1, ih.2.2⟩
      rw [List.chain'_cons']
      refine ⟨?_, ih.2.1⟩
      intro y hy hc
      have := ih.2.2 y hy
      rw [hc.2] at this
      exact Bool.noConfusion this
    · have e : ∀ b, collapseAux b (d :: ds) = d :: collapseAux false ds := by
        intro b
        rw [collapseAux, if_neg hw]
      rw [e, e]
      have hchain : List.Chain' (fun a b => ¬ (isWhitespace a = true ∧ isWhitespace b = true))
          (d :: collapseAux false ds) := by
        rw [List.chain'_cons']
        exact ⟨fun y _ hc => hw hc.1, ih.1⟩
      refine ⟨hchain, hchain, ?_⟩
      intro c hc
      cases hc
      exact Bool.eq_false_iff.2 hw

/-! ## Fields of unsanitised and numeric columns -/

theorem cleanForCsv_getD (x : Option Str) : cleanForCsv x = cleanForCsv (some (orEmpty x)) := by
  cases x <;> rfl

theorem csvField_raw (row : FlatRow) (header v : Str) (h : getProp row header = some (.str v))
    (hq : dquote ∉ v) : csvField row header = quotedField v := by
  rw [csvField_str row header v h]
  unfold quotedField
  rw [doubleQuotes_of_not_mem v hq]

theorem csvField_number (row : FlatRow) (header : Str) (n : Nat) (hn : 0 < n)
    (h : getProp row header = some (.num n)) :
    csvField row header = quotedField (Nat.toDigits 10 n) ∧
      csvField row header = Nat.toDigits 10 n := by
  have hp := toDigits_plain n
  have hfield : csvField row header = Nat.toDigits 10 n := by
    rw [csvField_eq_wrapField, cellString_num row header n hn h, wrapField_of_plain _ hp]
  refine ⟨?_, hfield⟩
  rw [hfield]
  unfold quotedField
  rw [if_neg]
  simp only [Bool.or_eq_true, includesChar_iff, not_or]
  exact ⟨⟨hp.1, hp.2.1⟩, hp.2.2⟩

/-! ## Claims -/

/-- Claim C1. In separate mode, with either `textOnly` setting, the rows returned by
`convertToCsvFormat` correspond one to one, in order, to the elements of the page's
selector results taken in page order; each row carries the page url, the selector of
the owning selector result and the sanitised element text; the number of rows is the
sum of the lengths of the element lists, so a selector result without elements gives
no row. -/
theorem separate_rows_one_per_element (data : PageResult) (textOnly : Bool) (h : data.WellFormed) :
    List.Forall₂
        (fun (row : FlatRow) (p : SelectorResult × ElementRecord) =>
          getProp row "url".toList = some (.str data.url) ∧
          getProp row "selector".toList = some (.str p.1.selector) ∧
          getProp row "text_content".toList = some (.str (cleanForCsv (some p.2.text))))
        (convertToCsvFormat data "separate".toList textOnly) (ownedElements data) ∧
      (convertToCsvFormat data "separate".toList textOnly).length =
        (data.selectorResults.map (fun entry => entry.2.elements.length)).sum := by
  rw [convert_separate_eq data textOnly h]
  refine ⟨?_, ?_⟩
  · rw [List.forall₂_map_left_iff, List.forall₂_same]
    intro p _
    exact ⟨separateRow_url _ _ _ _, separateRow_selector _ _ _ _, separateRow_text _ _ _ _⟩
  · simp [ownedElements, List.length_flatMap, Function.comp_def]

/-- Claim C1 on the example page, which has four elements. -/
theorem separate_rows_one_per_element_witness :
    demoPage.WellFormed ∧
      (List.Forall₂
          (fun (row : FlatRow) (p : SelectorResult × ElementRecord) =>
            getProp row "url".toList = some (.str demoPage.url) ∧
            getProp row "selector".toList = some (.str p.1.selector) ∧
            getProp row "text_content".toList = some (.str (cleanForCsv (some p.2.text))))
          (convertToCsvFormat demoPage "separate".toList false) (ownedElements demoPage) ∧
        (convertToCsvFormat demoPage "separate".toList false).length =
          (demoPage.selectorResults.map (fun entry => entry.2.elements.length)).sum) :=
  ⟨by decide, separate_rows_one_per_element demoPage false (by decide)⟩

/-- Claim C2. In combined mode, with either `textOnly` setting and for every page (also
one without selector results), `convertToCsvFormat` returns exactly one row; it starts
with `url`, `timestamp` and `page_title` holding the page url, the timestamp and the
sanitised title, and its further keys are the per-selector column names in selector
result order, a repeated name keeping its first place (no name repeats when the
selectors sanitise to distinct names). -/
theorem combined_single_row (data : PageResult) (textOnly : Bool) (h : data.WellFormed) :
    ∃ rest : FlatRow,
      convertToCsvFormat data "combined".toList textOnly =
        [ [ ("url".toList, .str data.url), ("timestamp".toList, .str data.timestamp),
            ("page_title".toList, .str (cleanForCsv (some data.title))) ] ++ rest ] ∧
      objectKeys rest =
        (data.selectorResults.flatMap (fun entry => selectorColumns textOnly entry.2)).foldl
          addKey [] ∧
      ((data.selectorResults.map (fun entry => sanitizeSelector entry.2.selector)).Nodup →
        objectKeys rest =
          data.selectorResults.flatMap (fun entry => selectorColumns textOnly entry.2)) := by
  refine ⟨_, convert_combined_eq data textOnly h, ?_, ?_⟩
  · rw [objectKeys_applyWrites, List.map_flatMap]
    simp only [selectorWrites_keys]
    rfl
  · intro hd
    rw [objectKeys_applyWrites, List.map_flatMap]
    simp only [selectorWrites_keys]
    rw [foldl_addKey_of_nodup _ _ (selectorColumns_flatMap_nodup _ _ hd)]
    · rfl
    · intro k _
      simp [objectKeys]

/-- Claim C2 on the example page. -/
theorem combined_single_row_witness :
    demoPage.WellFormed ∧
      ∃ rest : FlatRow,
        convertToCsvFormat demoPage "combined".toList false =
          [ [ ("url".toList, .str demoPage.url), ("timestamp".toList, .str demoPage.timestamp),
              ("page_title".toList, .str (cleanForCsv (some demoPage.title))) ] ++ rest ] ∧
        objectKeys rest =
          (demoPage.selectorResults.flatMap (fun entry => selectorColumns false entry.2)).foldl
            addKey [] ∧
        ((demoPage.selectorResults.map (fun entry => sanitizeSelector entry.2.selector)).Nodup →
          objectKeys rest =
            demoPage.selectorResults.flatMap (fun entry => selectorColumns false entry.2)) :=
  ⟨by decide, combined_single_row demoPage false (by decide)⟩

/-- Claim C3 as stated fails: an element text `x`, line feed, `y` contains a newline, so
the claim has it written inside double quotes with the newline kept, but the written
field is the unquoted `x y`. -/
theorem quoted_source_value_fails :
    (convertToCsvFormat lineBreakPage "separate".toList true).map
        (fun row => csvField row "text_content".toList) = ["x y".toList] ∧
      (ownedElements lineBreakPage).map (fun p => quotedField p.2.text) =
        [[dquote] ++ "x".toList ++ [lf] ++ "y".toList ++ [dquote]] ∧
      (convertToCsvFormat lineBreakPage "separate".toList true).map
        (fun row => csvField row "text_content".toList) ≠
        (ownedElements lineBreakPage).map (fun p => quotedField p.2.text) := by
  decide

/-- Claim C3, amended. For every page and every column of every flattened row, the
field that `saveToCsv` writes is the correctly quoted CSV field of the value of the
column: a double quote, the value with every double quote doubled once, a double quote
when the value holds a comma, a double quote or a newline, the value unchanged
otherwise. Here the value of a column sanitised when the row is built is the
whitespace-normalised text (which holds no newline), the value of one of the columns
`url`, `timestamp`, `selector`, `tag_name` is the stored string, provided it holds no
double quote, and the value of a number other than 0 is its decimal string. -/
theorem written_field_quoting (data : PageResult) (flattenMode : Str) (textOnly : Bool)
    (hwf : data.WellFormed) :
    ∀ row ∈ convertToCsvFormat data flattenMode textOnly,
      ∀ (header : Str) (value : Scalar), getProp row header = some value →
        (∃ x : Option Str, value = .str (cleanForCsv x) ∧
          csvField row header = quotedField (normalizeWhitespace (orEmpty x)) ∧
          lf ∉ normalizeWhitespace (orEmpty x)) ∨
        (∃ v : Str, value = .str v ∧ header ∈ rawColumns ∧
          (dquote ∉ v → csvField row header = quotedField v)) ∨
        (∃ n : Nat, value = .num n ∧
          (0 < n → csvField row header = quotedField (Nat.toDigits 10 n))) := by
  intro row hrow header value hget
  have hclass := convert_rows_all
    (fun kv => (∃ x : Option Str, kv.2 = .str (cleanForCsv x)) ∨
      (∃ v : Str, kv.2 = .str v ∧ kv.1 ∈ rawColumns) ∨ (∃ n : Nat, kv.2 = .num n))
    data flattenMode textOnly hwf
    (Or.inr (Or.inl ⟨_, rfl, show "url".toList ∈ rawColumns by decide⟩))
    (Or.inr (Or.inl ⟨_, rfl, show "timestamp".toList ∈ rawColumns by decide⟩))
    (fun _ _ => Or.inr (Or.inl ⟨_, rfl, show "selector".toList ∈ rawColumns by decide⟩))
    (fun _ _ _ _ => Or.inr (Or.inl ⟨_, rfl, show "tag_name".toList ∈ rawColumns by decide⟩))
    (fun _ x => Or.inl ⟨x, rfl⟩)
    (fun _ n => Or.inr (Or.inr ⟨n, rfl⟩))
    row hrow (header, value) (mem_of_getProp row header value hget)
  rcases hclass with ⟨x, hx⟩ | ⟨v, hv, hraw⟩ | ⟨n, hn⟩
  · left
    simp only at hx
    subst hx
    refine ⟨x, rfl, ?_, lf_not_mem_normalizeWhitespace _⟩
    rw [cleanForCsv_getD] at hget
    exact csvField_cleaned row header _ hget
  · right; left
    simp only at hv hraw
    subst hv
    exact ⟨v, rfl, hraw, fun hq => csvField_raw row header v hget hq⟩
  · right; right
    simp only at hn
    subst hn
    exact ⟨n, rfl, fun hpos => (csvField_number row header n hpos hget).1⟩

/-- Claim C3 on the example of the specification: the element text `a,b"c` is written
as `"a,b""c"`. -/
theorem written_field_quoting_witness :
    commaQuotePage.WellFormed ∧
      (∀ row ∈ convertToCsvFormat commaQuotePage "separate".toList true,
        ∀ (header : Str) (value : Scalar), getProp row header = some value →
          (∃ x : Option Str, value = .str (cleanForCsv x) ∧
            csvField row header = quotedField (normalizeWhitespace (orEmpty x)) ∧
            lf ∉ normalizeWhitespace (orEmpty x)) ∨
          (∃ v : Str, value = .str v ∧ header ∈ rawColumns ∧
            (dquote ∉ v → csvField row header = quotedField v)) ∨
          (∃ n : Nat, value = .num n ∧
            (0 < n → csvField row header = quotedField (Nat.toDigits 10 n)))) ∧
      convertToCsvFormat commaQuotePage "separate".toList true = [commaQuoteRow] ∧
      getProp commaQuoteRow "text_content".toList =
        some (.str (cleanForCsv (some ("a,b".toList ++ [dquote] ++ "c".toList)))) ∧
      csvField commaQuoteRow "text_content".toList =
        quotedField (normalizeWhitespace ("a,b".toList ++ [dquote] ++ "c".toList)) ∧
      csvField commaQuoteRow "text_content".toList =
        [dquote] ++ "a,b".toList ++ [dquote, dquote] ++ "c".toList ++ [dquote] ∧
      csvField commaQuoteRow "url".toList = quotedField commaQuotePage.url :=
  ⟨by decide, written_field_quoting commaQuotePage "separate".toList true (by decide),
    by decide, by decide, by decide, by decide, by decide⟩

/-- Claim C4 as stated fails: for the element text `say "hi"` the flat row holds
`say ""hi""`, a value without control characters, and reading the written text back
gives `say "hi"`, not the value of the flat row. -/
theorem round_trip_flat_value_fails :
    convertToCsvFormat quotePage "separate".toList true = [quoteRow] ∧
      getProp quoteRow "text_content".toList =
        some (.str ("say ".toList ++ [dquote, dquote] ++ "hi".toList ++ [dquote, dquote])) ∧
      (saveToCsv (some [quotePage]) "separate".toList true).map parseCsv =
        some [ ["url".toList, "selector".toList, "text_content".toList],
               ["https://example.com/".toList, "p".toList,
                 "say ".toList ++ [dquote] ++ "hi".toList ++ [dquote]] ] ∧
      "say ".toList ++ [dquote] ++ "hi".toList ++ [dquote] ≠
        "say ".toList ++ [dquote, dquote] ++ "hi".toList ++ [dquote, dquote] := by
  decide

/-- Claim C4, amended. For every list of pages whose unsanitised columns (url,
timestamp, selector, tag name) hold no double quote, and every mode and `textOnly`
setting that give at least one row, `saveToCsv` writes a text, and reading it with the
documented quoting rules gives the header record followed by one record per row with
one cell per header column; the cell of a string value is that value with every doubled
quote read as one quote, and the cell of a number other than 0 is its decimal string. -/
theorem round_trip_unescaped (pages : List PageResult) (flattenMode : Str) (textOnly : Bool)
    (hwf : ∀ data ∈ pages, data.WellFormed) (hraw : ∀ data ∈ pages, RawQuoteFree data)
    (first : FlatRow) (rest : List FlatRow)
    (hrows : pages.flatMap (fun data => convertToCsvFormat data flattenMode textOnly) =
      first :: rest) :
    ∃ text records, saveToCsv (some pages) flattenMode textOnly = some text ∧
      parseCsv text = objectKeys first :: records ∧
      List.Forall₂
        (fun (row : FlatRow) (record : List Str) =>
          List.Forall₂
            (fun (header cell : Str) =>
              (∀ v, getProp row header = some (.str v) → cell = halveQuotes v) ∧
              (∀ n, getProp row header = some (.num n) → 0 < n → cell = Nat.toDigits 10 n))
            (objectKeys first) record)
        (first :: rest) records := by
  have hall : ∀ row ∈ first :: rest,
      RowOK row ∧ objectKeys row ≠ [] ∧ ∀ h ∈ objectKeys row, IsPlain h := by
    intro row hrow
    rw [← hrows] at hrow
    obtain ⟨data, hdata, hrow⟩ := List.mem_flatMap.1 hrow
    exact convert_rows_ok data flattenMode textOnly (hwf data hdata) (hraw data hdata) row hrow
  have hfirst := hall first (List.mem_cons_self _ _)
  obtain ⟨text, htext, hparse⟩ := parseCsv_encodeRows first rest hfirst.2.1 hfirst.2.2
    (fun row hrow => (hall row hrow).1)
  refine ⟨text, _, ?_, hparse, ?_⟩
  · rw [saveToCsv_eq, hrows, htext]
  · rw [List.forall₂_map_right_iff, List.forall₂_same]
    intro row _
    rw [List.forall₂_map_right_iff, List.forall₂_same]
    intro header _
    constructor
    · intro v hv
      rw [cellString_str row header v hv]
    · intro n hn hpos
      rw [cellString_num row header n hpos hn]
      exact halveQuotes_of_not_mem _ (toDigits_plain n).2.1

/-- Claim C4 on the page with the text `say "hi"`. -/
theorem round_trip_unescaped_witness :
    (∀ data ∈ [quotePage], data.WellFormed) ∧ (∀ data ∈ [quotePage], RawQuoteFree data) ∧
      [quotePage].flatMap (fun data => convertToCsvFormat data "separate".toList true) =
        [quoteRow] ∧
      ∃ text records, saveToCsv (some [quotePage]) "separate".toList true = some text ∧
        parseCsv text = objectKeys quoteRow :: records ∧
        List.Forall₂
          (fun (row : FlatRow) (record : List Str) =>
            List.Forall₂
              (fun (header cell : Str) =>
                (∀ v, getProp row header = some (.str v) → cell = halveQuotes v) ∧
                (∀ n, getProp row header = some (.num n) → 0 < n → cell = Nat.toDigits 10 n))
              (objectKeys quoteRow) record)
          [quoteRow] records :=
  ⟨by decide, by decide, by decide,
    round_trip_unescaped [quotePage] "separate".toList true (by decide) (by decide)
      quoteRow [] (by decide)⟩

/-- Claim C5 fails on the code. The first matched element has `element_index` 0 and a
selector without matches has count 0; both are stored as the number 0 in the flat row,
whose decimal string is `0`, and both are written as the empty field. -/
theorem zero_written_as_empty :
    (convertToCsvFormat zeroPage "separate".toList false).map
        (fun row => (getProp row "element_index".toList, csvField row "element_index".toList)) =
        [(some (.num 0), [])] ∧
      (convertToCsvFormat zeroPage "combined".toList false).map
        (fun row => (getProp row "h2_count".toList, csvField row "h2_count".toList)) =
        [(some (.num 0), [])] ∧
      scalarToString (.num 0) = "0".toList ∧
      saveToCsv (some [zeroPage]) "combined".toList false =
        some ("url,timestamp,page_title,p_count,p_texts,h2_count,h2_texts".toList ++ [lf] ++
          "https://example.com/,2024-01-01T00:00:00.000Z,Demo,1,first,,".toList ++ [lf]) := by
  decide

/-- Claim C6. For every non-empty sequence of rows the written text is the keys of the
first row joined by commas and a newline, then one line per row, made of the fields of
that row for exactly those header columns in header order, joined by commas; a header
key the row lacks gives the empty field, and the text does not depend on what later
rows hold under keys that are not header keys. -/
theorem header_from_first_row (first : FlatRow) (rest : List FlatRow) :
    encodeRows (first :: rest) =
        some (joinWith [comma] (objectKeys first) ++ [lf] ++
          ((first :: rest).map (fun row =>
            joinWith [comma] ((objectKeys first).map (csvField row)) ++ [lf])).flatten) ∧
      (∀ row : FlatRow, ((objectKeys first).map (csvField row)).length = (objectKeys first).length) ∧
      (∀ (row : FlatRow) (header : Str), getProp row header = none → csvField row header = []) ∧
      (∀ rest' : List FlatRow,
        List.Forall₂ (fun r r' => ∀ header ∈ objectKeys first, getProp r header = getProp r' header)
          rest rest' →
        encodeRows (first :: rest') = encodeRows (first :: rest)) := by
  refine ⟨encodeRows_cons first rest, fun row => List.length_map _ _, csvField_missing, ?_⟩
  intro rest' hrel
  rw [encodeRows_cons, encodeRows_cons]
  congr 3
  simp only [List.map_cons]
  congr 1
  induction hrel with
  | nil => rfl
  | cons hab _ ih =>
    rw [List.map_cons, List.map_cons, ih]
    congr 3
    apply List.map_congr_left
    intro header hh
    exact (csvField_congr _ _ _ (hab header hh)).symm

/-- Claim C7 as stated fails: for the single paragraph text `say "hi"` the column
`p_texts` holds `say ""hi""`, not the joined texts. -/
theorem texts_column_not_plain_join :
    quotePage.WellFormed ∧
      (quotePage.selectorResults.map (fun entry => sanitizeSelector entry.2.selector)).Nodup ∧
      (convertToCsvFormat quotePage "combined".toList false).map
        (fun row => getProp row "p_texts".toList) =
        [some (.str ("say ".toList ++ [dquote, dquote] ++ "hi".toList ++ [dquote, dquote]))] ∧
      ∃ entry ∈ quotePage.selectorResults,
        ∃ row ∈ convertToCsvFormat quotePage "combined".toList false,
          getProp row (sanitizeSelector entry.2.selector ++ "_texts".toList) ≠
            some (.str (joinWith " | ".toList
              ((entry.2.elements.map (fun el => el.text)).filter (fun t => decide (t ≠ []))))) := by
  decide

/-- Claim C7, amended. For every page whose selectors sanitise to pairwise distinct names
and every selector result of it, the combined-mode column `<name>_texts` is the
sanitised form (`cleanForCsv`) of the texts of its elements, the empty ones removed,
joined with ` | `. -/
theorem texts_column_sanitised_join (data : PageResult) (textOnly : Bool) (h : data.WellFormed)
    (hd : (data.selectorResults.map (fun entry => sanitizeSelector entry.2.selector)).Nodup) :
    ∃ row, convertToCsvFormat data "combined".toList textOnly = [row] ∧
      ∀ entry ∈ data.selectorResults,
        getProp row (sanitizeSelector entry.2.selector ++ "_texts".toList) =
          some (.str (cleanForCsv (some (joinWith " | ".toList
            ((entry.2.elements.map (fun el => el.text)).filter (fun t => decide (t ≠ []))))))) := by
  refine ⟨_, convert_combined_eq data textOnly h, ?_⟩
  intro entry he
  obtain ⟨pre, post, hsplit⟩ := List.append_of_mem he
  have hlast : ∀ e ∈ post, sanitizeSelector e.2.selector ≠ sanitizeSelector entry.2.selector := by
    intro e hepost heq
    rw [hsplit, List.map_append, List.map_cons, List.nodup_append] at hd
    have := (List.nodup_cons.1 hd.2.1).1
    exact this (List.mem_map.2 ⟨e, hepost, heq⟩)
  have hfilter : (entry.2.elements.map (fun el => el.text)).filter (fun t => decide (t ≠ [])) =
      allTexts entry.2 := by
    unfold allTexts
    congr 1
    funext t
    cases t <;> simp
  have key : ∃ row, convertToCsvFormat data "combined".toList textOnly = [row] ∧
      getProp row (sanitizeSelector entry.2.selector ++ "_texts".toList) =
        some (.str (cleanForCsv (some (joinWith " | ".toList (allTexts entry.2))))) := by
    rcases selectorWrites_cases textOnly entry.2 with hw | hw
    · refine getProp_combined_of_last data textOnly h pre post entry.1 entry.2 hsplit hlast
        [(sanitizeSelector entry.2.selector ++ "_count".toList, .num entry.2.count)] [] _ _
        (by simp [columnSuffixes]) hw ?_
      simp
    · refine getProp_combined_of_last data textOnly h pre post entry.1 entry.2 hsplit hlast
        [(sanitizeSelector entry.2.selector ++ "_count".toList, .num entry.2.count)] _ _ _
        (by simp [columnSuffixes]) hw ?_
      simp only [List.map_cons, List.map_nil, List.mem_singleton]
      exact texts_ne_hrefs _
  obtain ⟨row, hrow, hget⟩ := key
  rw [convert_combined_eq data textOnly h] at hrow
  rw [(List.cons.inj hrow).1, hfilter, hget]

/-- Claim C7 on the example page, whose empty paragraph is left out of `p_texts`. -/
theorem texts_column_sanitised_join_witness :
    demoPage.WellFormed ∧
      (demoPage.selectorResults.map (fun entry => sanitizeSelector entry.2.selector)).Nodup ∧
      ∃ row, convertToCsvFormat demoPage "combined".toList false = [row] ∧
        ∀ entry ∈ demoPage.selectorResults,
          getProp row (sanitizeSelector entry.2.selector ++ "_texts".toList) =
            some (.str (cleanForCsv (some (joinWith " | ".toList
              ((entry.2.elements.map (fun el => el.text)).filter
                (fun t => decide (t ≠ []))))))) :=
  ⟨by decide, by decide, texts_column_sanitised_join demoPage false (by decide) (by decide)⟩

/-- Claim C8 as stated fails: on the page scraped with `.a` and `#a` the row has the
column `_a_hrefs`, written for `#a`, although no element of the result of `.a`, which
has the same sanitised name, has an href. -/
theorem hrefs_column_of_other_selector :
    collidePage.WellFormed ∧
      ("selector_1__a".toList, classResult) ∈ collidePage.selectorResults ∧
      (∀ row ∈ convertToCsvFormat collidePage "combined".toList false,
        sanitizeSelector classResult.selector ++ "_hrefs".toList ∈ objectKeys row) ∧
      (∀ el ∈ classResult.elements, el.href = none) := by
  decide

/-- Claim C8, amended. For every page, `textOnly` setting and name `s`, the combined-mode
row has a column `s_hrefs` if and only if `textOnly` is false and some selector result
of the page whose selector sanitises to `s` has an element with a non-empty href; so
without such an element the column is absent, not empty. -/
theorem hrefs_column_iff (data : PageResult) (textOnly : Bool) (h : data.WellFormed) (s : Str) :
    ∃ row, convertToCsvFormat data "combined".toList textOnly = [row] ∧
      (s ++ "_hrefs".toList ∈ objectKeys row ↔
        textOnly = false ∧ ∃ entry ∈ data.selectorResults,
          sanitizeSelector entry.2.selector = s ∧
            ∃ el ∈ entry.2.elements, ∃ href, el.href = some href ∧ href ≠ []) := by
  refine ⟨_, convert_combined_eq data textOnly h, ?_⟩
  rw [mem_objectKeys_append, objectKeys_applyWrites, mem_foldl_addKey]
  have hb : s ++ "_hrefs".toList ∉ objectKeys (baseColumns data) :=
    column_not_base data s _ (by simp [columnSuffixes])
  have hn : s ++ "_hrefs".toList ∉ objectKeys ([] : FlatRow) := by simp [objectKeys]
  simp only [hb, hn, false_or, List.map_flatMap, List.mem_flatMap, selectorWrites_keys]
  constructor
  · rintro ⟨entry, he, hm⟩
    unfold selectorColumns at hm
    rcases List.mem_append.1 hm with hm | hm
    · exfalso
      simp only [List.mem_cons, List.mem_singleton, List.not_mem_nil, or_false] at hm
      rcases hm with hm | hm
      · exact absurd (column_inj _ _ _ _ (by simp [columnSuffixes]) (by simp [columnSuffixes]) hm).2
          (by decide)
      · exact absurd (column_inj _ _ _ _ (by simp [columnSuffixes]) (by simp [columnSuffixes]) hm).2
          (by decide)
    · split at hm
      · rename_i hc
        rw [List.mem_singleton] at hm
        have hs := (List.append_cancel_right hm).symm
        obtain ⟨el, hel, hh⟩ := List.any_eq_true.1 hc.2
        refine ⟨hc.1, entry, he, hs, el, hel, ?_⟩
        unfold hasNonEmptyHref at hh
        cases hhr : el.href with
        | none => rw [hhr] at hh; simp at hh
        | some v =>
          rw [hhr] at hh
          refine ⟨v, rfl, ?_⟩
          rintro rfl
          simp at hh
      · simp at hm
  · rintro ⟨ht, entry, he, hs, el, hel, href, hhref, hne⟩
    refine ⟨entry, he, ?_⟩
    unfold selectorColumns
    have hc : textOnly = false ∧ entry.2.elements.any hasNonEmptyHref = true := by
      refine ⟨ht, List.any_eq_true.2 ⟨el, hel, ?_⟩⟩
      unfold hasNonEmptyHref
      rw [hhref]
      cases href with
      | nil => exact absurd rfl hne
      | cons a l => rfl
    rw [if_pos hc, hs]
    simp

/-- Claim C8 on the example page and the name `a`. -/
theorem hrefs_column_iff_witness :
    demoPage.WellFormed ∧
      ∃ row, convertToCsvFormat demoPage "combined".toList false = [row] ∧
        ("a".toList ++ "_hrefs".toList ∈ objectKeys row ↔
          false = false ∧ ∃ entry ∈ demoPage.selectorResults,
            sanitizeSelector entry.2.selector = "a".toList ∧
              ∃ el ∈ entry.2.elements, ∃ href, el.href = some href ∧ href ≠ []) :=
  ⟨by decide, hrefs_column_iff demoPage false (by decide) "a".toList⟩

/-- Claim C9 as stated fails: on the page scraped with `.a` (one match) and `#a` (two
matches) the column `_a_count` holds 2, not the count 1 of the result of `.a`. -/
theorem count_column_overwritten :
    collidePage.WellFormed ∧
      ("selector_1__a".toList, classResult) ∈ collidePage.selectorResults ∧
      classResult.count = 1 ∧
      (convertToCsvFormat collidePage "combined".toList false).map
        (fun row => getProp row (sanitizeSelector classResult.selector ++ "_count".toList)) =
        [some (.num 2)] := by
  decide

/-- Claim C9, amended. For every page and every selector result `r` of it that no later
selector result of the page shares its sanitised selector name with, the combined-mode
column `<name>_count` holds `r.count`: among the selector results with one sanitised
name the last one gives the column. -/
theorem count_column_last_write (data : PageResult) (textOnly : Bool) (h : data.WellFormed)
    (pre post : List (Str × SelectorResult)) (key : Str) (r : SelectorResult)
    (hsplit : data.selectorResults = pre ++ (key, r) :: post)
    (hlast : ∀ e ∈ post, sanitizeSelector e.2.selector ≠ sanitizeSelector r.selector) :
    ∃ row, convertToCsvFormat data "combined".toList textOnly = [row] ∧
      getProp row (sanitizeSelector r.selector ++ "_count".toList) = some (.num r.count) := by
  rcases selectorWrites_cases textOnly r with hw | hw
  · refine getProp_combined_of_last data textOnly h pre post key r hsplit hlast [] _ _ _
      (by simp [columnSuffixes]) hw ?_
    simp only [List.map_cons, List.map_nil, List.mem_singleton]
    exact count_ne_texts _
  · refine getProp_combined_of_last data textOnly h pre post key r hsplit hlast [] _ _ _
      (by simp [columnSuffixes]) hw ?_
    simp only [List.map_cons, List.map_nil, List.mem_cons, List.mem_singleton, List.not_mem_nil,
      or_false, not_or]
    exact ⟨count_ne_texts _, count_ne_hrefs _⟩

/-- Claim C9 on the page scraped with `.a` and `#a`, for the result of `#a`. -/
theorem count_column_last_write_witness :
    collidePage.WellFormed ∧
      collidePage.selectorResults =
        [("selector_1__a".toList, classResult)] ++ ("selector_2__a".toList, idResult) :: [] ∧
      ∃ row, convertToCsvFormat collidePage "combined".toList false = [row] ∧
        getProp row (sanitizeSelector idResult.selector ++ "_count".toList) =
          some (.num idResult.count) :=
  ⟨by decide, rfl,
    count_column_last_write collidePage false (by decide)
      [("selector_1__a".toList, classResult)] [] "selector_2__a".toList idResult rfl
      (fun e he => absurd he (List.not_mem_nil e))⟩

/-- Claim C10. Every row of separate mode has the key sequence fixed by `textOnly`: the
three keys `url`, `selector`, `text_content` when it is set, the nineteen keys of the
full layout otherwise, whatever the tag of the element; each attribute column holds the
sanitised field of the element record (`title_attr` that of `title`), the empty string
when the record has no such field. -/
theorem separate_row_columns (data : PageResult) (textOnly : Bool) (h : data.WellFormed) :
    List.Forall₂
      (fun (row : FlatRow) (p : SelectorResult × ElementRecord) =>
        objectKeys row = (if textOnly = true then textOnlyColumns else fullColumns) ∧
        (textOnly = false →
          getProp row "href".toList = some (.str (cleanedField p.2.href)) ∧
          getProp row "src".toList = some (.str (cleanedField p.2.src)) ∧
          getProp row "alt".toList = some (.str (cleanedField p.2.alt)) ∧
          getProp row "title_attr".toList = some (.str (cleanedField p.2.title)) ∧
          getProp row "id".toList = some (.str (cleanForCsv (some p.2.id))) ∧
          getProp row "class".toList = some (.str (cleanForCsv (some p.2.«class»))) ∧
          getProp row "type".toList = some (.str (cleanedField p.2.type)) ∧
          getProp row "name".toList = some (.str (cleanedField p.2.name)) ∧
          getProp row "value".toList = some (.str (cleanedField p.2.value)) ∧
          getProp row "width".toList = some (.str (cleanedField p.2.width)) ∧
          getProp row "height".toList = some (.str (cleanedField p.2.height))))
      (convertToCsvFormat data "separate".toList textOnly) (ownedElements data) := by
  rw [convert_separate_eq data textOnly h, List.forall₂_map_left_iff, List.forall₂_same]
  intro p _
  refine ⟨separateRow_keys _ _ _ _, ?_⟩
  intro ht
  subst ht
  simp only [← cleanForCsv_orEmpty]
  exact ⟨rfl, rfl, rfl, rfl, rfl, rfl, rfl, rfl, rfl, rfl, rfl⟩

/-- Claim C10 on the example page. -/
theorem separate_row_columns_witness :
    demoPage.WellFormed ∧
      (convertToCsvFormat demoPage "separate".toList false).map objectKeys =
        [fullColumns, fullColumns, fullColumns, fullColumns] ∧
      List.Forall₂
        (fun (row : FlatRow) (p : SelectorResult × ElementRecord) =>
          objectKeys row = (if false = true then textOnlyColumns else fullColumns) ∧
          (false = false →
            getProp row "href".toList = some (.str (cleanedField p.2.href)) ∧
            getProp row "src".toList = some (.str (cleanedField p.2.src)) ∧
            getProp row "alt".toList = some (.str (cleanedField p.2.alt)) ∧
            getProp row "title_attr".toList = some (.str (cleanedField p.2.title)) ∧
            getProp row "id".toList = some (.str (cleanForCsv (some p.2.id))) ∧
            getProp row "class".toList = some (.str (cleanForCsv (some p.2.«class»))) ∧
            getProp row "type".toList = some (.str (cleanedField p.2.type)) ∧
            getProp row "name".toList = some (.str (cleanedField p.2.name)) ∧
            getProp row "value".toList = some (.str (cleanedField p.2.value)) ∧
            getProp row "width".toList = some (.str (cleanedField p.2.width)) ∧
            getProp row "height".toList = some (.str (cleanedField p.2.height))))
        (convertToCsvFormat demoPage "separate".toList false) (ownedElements demoPage) :=
  ⟨by decide, by decide, separate_row_columns demoPage false (by decide)⟩

/-- Claim C12. For every document and every non-empty selector list, the page built by
the extraction pass of `scrapeUrl` holds exactly one selector result per selector, in
input order: the error shape with the message of the fault when the query of the
selector raised, the normal shape otherwise; each result depends on the query of its
own selector only, and `scrapeUrl` returns the page whenever its request succeeds. -/
theorem extraction_one_result_per_selector (doc : Document) (url timestamp : Str)
    (selectors : List Str) (hne : selectors ≠ []) :
    (extractPage doc url timestamp selectors).selectorResults.map Prod.snd =
        selectors.map (fun selector =>
          match doc.query selector with
          | .ok nodes =>
            { selector := selector, count := nodes.length, elements := normalizeFrom 0 nodes }
          | .error message =>
            { selector := selector, error := some message, count := 0, elements := [] }) ∧
      (extractPage doc url timestamp selectors).selectorResults.length = selectors.length ∧
      (∀ (world : World) (i : Nat), world i url = .ok (doc, timestamp) →
        scrapeUrl world i url selectors = .ok (extractPage doc url timestamp selectors)) := by
  have heff : effectiveSelectors selectors = selectors := by
    unfold effectiveSelectors
    rw [if_neg]
    intro h
    exact hne (List.length_eq_zero.1 h)
  have hmap : ∀ (index : Nat) (sels : List Str),
      (entriesFrom doc index sels).map Prod.snd =
        sels.map (fun selector =>
          match doc.query selector with
          | .ok nodes =>
            ({ selector := selector, count := nodes.length, elements := normalizeFrom 0 nodes } :
              SelectorResult)
          | .error message =>
            { selector := selector, error := some message, count := 0, elements := [] }) := by
    intro index sels
    induction sels generalizing index with
    | nil => rfl
    | cons s rest ih =>
      show (selectorEntry doc s index).2 :: (entriesFrom doc (index + 1) rest).map Prod.snd = _
      rw [ih, selectorEntry_value]
      rfl
  rw [extractPage_entries, heff]
  refine ⟨hmap 0 selectors, ?_, ?_⟩
  · have := congrArg List.length (hmap 0 selectors)
    simpa using this
  · intro world i hw
    unfold scrapeUrl
    rw [hw]

/-- Claim C12 on the example document queried with `h1`, the rejected `]` and `p`. -/
theorem extraction_one_result_per_selector_witness :
    ["h1".toList, "]".toList, "p".toList] ≠ [] ∧
      ((extractPage strictDocument "https://example.com/".toList
          "2024-01-01T00:00:00.000Z".toList
          ["h1".toList, "]".toList, "p".toList]).selectorResults.map Prod.snd =
        ["h1".toList, "]".toList, "p".toList].map (fun selector =>
          match strictDocument.query selector with
          | .ok nodes =>
            { selector := selector, count := nodes.length, elements := normalizeFrom 0 nodes }
          | .error message =>
            { selector := selector, error := some message, count := 0, elements := [] }) ∧
      (extractPage strictDocument "https://example.com/".toList
          "2024-01-01T00:00:00.000Z".toList
          ["h1".toList, "]".toList, "p".toList]).selectorResults.length =
        ["h1".toList, "]".toList, "p".toList].length ∧
      (∀ (world : World) (i : Nat),
        world i "https://example.com/".toList =
          .ok (strictDocument, "2024-01-01T00:00:00.000Z".toList) →
        scrapeUrl world i "https://example.com/".toList ["h1".toList, "]".toList, "p".toList] =
          .ok (extractPage strictDocument "https://example.com/".toList
            "2024-01-01T00:00:00.000Z".toList ["h1".toList, "]".toList, "p".toList]))) :=
  ⟨by decide,
    extraction_one_result_per_selector strictDocument "https://example.com/".toList
      "2024-01-01T00:00:00.000Z".toList ["h1".toList, "]".toList, "p".toList] (by decide)⟩

/-- Claim C13 as stated fails: the entry of the rejected selector `]`, second in the
list, is stored under `selector_2_error`, not under `selector_2__`. -/
theorem error_entry_key_not_sanitised :
    (extractPage strictDocument "https://example.com/".toList "2024-01-01T00:00:00.000Z".toList
        ["h1".toList, "]".toList, "p".toList]).selectorResults.map Prod.fst =
      ["selector_1_h1".toList, "selector_2_error".toList, "selector_3_p".toList] ∧
      "selector_".toList ++ Nat.toDigits 10 2 ++ "_".toList ++ sanitizeSelector "]".toList =
        "selector_2__".toList ∧
      "selector_2_error".toList ≠ "selector_2__".toList := by
  decide

/-- Claim C13, amended. The key under which the result of the selector at 1-based
position `i` is stored is `selector_`, the decimal of `i`, `_` and the sanitised
selector when the query of the selector gave nodes, and `selector_`, the decimal of
`i` and `_error` when it raised. -/
theorem entry_keys (doc : Document) (url timestamp : Str) (selectors : List Str) :
    (extractPage doc url timestamp selectors).selectorResults.map Prod.fst =
      (effectiveSelectors selectors).enum.map (fun p =>
        match doc.query p.2 with
        | .ok _ =>
          "selector_".toList ++ Nat.toDigits 10 (p.1 + 1) ++ "_".toList ++ sanitizeSelector p.2
        | .error _ => "selector_".toList ++ Nat.toDigits 10 (p.1 + 1) ++ "_error".toList) := by
  rw [extractPage_entries, entriesFrom_eq_enumFrom, List.map_map]
  apply List.map_congr_left
  intro p _
  show (selectorEntry doc p.2 p.1).1 = _
  unfold selectorEntry
  cases doc.query p.2 <;> rfl

/-- Claim C14. For every selector whose query gives `m` nodes, the selector result
built by `scrapeUrl` has `count = m` and `m` elements; the element at 0-based position
`j` is built from the `j`-th matched node (its tag name, trimmed text and markup) and
has `index = j`; when `m = 0` the result has count 0 and no element, and the loop of
separate mode adds no row for it. -/
theorem matched_nodes_in_order (doc : Document) (url timestamp : Str) (selectors : List Str) :
    List.Forall₂
      (fun (selector : Str) (entry : Str × SelectorResult) =>
        entry.2.selector = selector ∧
        ∀ nodes : List Node, doc.query selector = .ok nodes →
          entry.2.count = nodes.length ∧
          entry.2.elements.length = nodes.length ∧
          (∀ (j : Nat) (node : Node), nodes[j]? = some node →
            ∃ el : ElementRecord, entry.2.elements[j]? = some el ∧ el.index = j ∧
              el.tagName = node.tagName ∧ el.text = trim node.text ∧ el.html = node.html) ∧
          (nodes = [] →
            entry.2.count = 0 ∧ entry.2.elements = [] ∧
            ∀ (data : PageResult) (textOnly : Bool) (csvRows : List FlatRow),
              separateStep data textOnly csvRows entry = csvRows))
      (effectiveSelectors selectors)
      (extractPage doc url timestamp selectors).selectorResults := by
  rw [extractPage_entries]
  have key : ∀ (sels : List Str) (index : Nat),
      List.Forall₂
        (fun (selector : Str) (entry : Str × SelectorResult) =>
          entry.2.selector = selector ∧
          ∀ nodes : List Node, doc.query selector = .ok nodes →
            entry.2.count = nodes.length ∧
            entry.2.elements.length = nodes.length ∧
            (∀ (j : Nat) (node : Node), nodes[j]? = some node →
              ∃ el : ElementRecord, entry.2.elements[j]? = some el ∧ el.index = j ∧
                el.tagName = node.tagName ∧ el.text = trim node.text ∧ el.html = node.html) ∧
            (nodes = [] →
              entry.2.count = 0 ∧ entry.2.elements = [] ∧
              ∀ (data : PageResult) (textOnly : Bool) (csvRows : List FlatRow),
                separateStep data textOnly csvRows entry = csvRows))
        sels (entriesFrom doc index sels) := by
    intro sels
    induction sels with
    | nil => exact fun _ => List.Forall₂.nil
    | cons s rest ih =>
      intro index
      exact List.Forall₂.cons (selectorEntry_matched doc s index) (ih (index + 1))
  exact key _ 0

/-- Claim C17 as stated fails: the example gives two rows whose selector is `p`, one
for each paragraph, not exactly one. -/
theorem example_two_paragraph_rows :
    (rowsOfSelector demoRows "p".toList).length = 2 ∧
      (rowsOfSelector demoRows "p".toList).map
          (fun row => getProp row "text_content".toList) =
        [some (.str "Hello, world".toList), some (.str [])] ∧
      (rowsOfSelector demoRows "p".toList).length ≠ 1 := by
  decide

/-- Claim C17, amended. For the selectors `h1`, `p`, `a` on the example page,
extraction followed by `convertToCsvFormat` in separate mode with `textOnly` false
gives four rows: exactly one whose selector is `h1`, exactly two whose selector is `p`
(the paragraph with empty text has its row too), and exactly one whose selector is
`a`, with `href` equal to `/x`. -/
theorem example_rows :
    demoRows.length = 4 ∧
      (rowsOfSelector demoRows "h1".toList).length = 1 ∧
      (rowsOfSelector demoRows "p".toList).length = 2 ∧
      (rowsOfSelector demoRows "a".toList).map (fun row => getProp row "href".toList) =
        [some (.str "/x".toList)] := by
  decide

/-- Claim C15. For every URL list and every pattern of failures, `scrapeMultipleUrls`
returns exactly the pages of the URLs whose `scrapeUrl` call returned, in the order of
the URLs, with nothing for a failed URL, and a failure does not stop the URLs after it;
for three URLs of which the second fails it returns the pages of the first and the
third, in that order. -/
theorem batch_results_are_successes (world : World) (urls selectors : List Str)
    (optionsDelay : Option Nat) :
    scrapeMultipleUrls world urls selectors optionsDelay =
        urls.enum.filterMap (fun p => pageOf (scrapeUrl world p.1 p.2 selectors)) ∧
      ∀ (u₁ u₂ u₃ : Str) (d₁ d₃ : PageResult) (e : Str),
        scrapeUrl world 0 u₁ selectors = .ok d₁ →
        scrapeUrl world 1 u₂ selectors = .error e →
        scrapeUrl world 2 u₃ selectors = .ok d₃ →
        scrapeMultipleUrls world [u₁, u₂, u₃] selectors optionsDelay = [d₁, d₃] := by
  constructor
  · exact batchLoop_results world selectors _ _ 0 urls
  · intro u₁ u₂ u₃ d₁ d₃ e h₁ h₂ h₃
    unfold scrapeMultipleUrls
    rw [batchLoop_results]
    simp [List.enumFrom, List.filterMap_cons, h₁, h₂, h₃, pageOf]

/-- Claim C15 on three URLs in a world where the second request fails. -/
theorem batch_results_are_successes_witness :
    scrapeMultipleUrls (worldFailingAt 1)
        ["https://a.example/".toList, "https://b.example/".toList, "https://c.example/".toList]
        ["h1".toList] none =
      [ extractPage demoDocument "https://a.example/".toList "2024-01-01T00:00:00.000Z".toList
          ["h1".toList],
        extractPage demoDocument "https://c.example/".toList "2024-01-01T00:00:00.000Z".toList
          ["h1".toList] ] :=
  (batch_results_are_successes (worldFailingAt 1) [] ["h1".toList] none).2
    "https://a.example/".toList "https://b.example/".toList "https://c.example/".toList
    _ _ "Scraping failed: timeout of 15000ms exceeded".toList rfl rfl rfl

/-- Claim C16 as stated fails: with two URLs of which the first fails, the run does not
suspend at all, although the claim has one suspension between the two. -/
theorem no_suspension_after_failure :
    batchTrace (worldFailingAt 0) ["https://a.example/".toList, "https://b.example/".toList]
        ["h1".toList] (some 1000) =
      [Event.process 0 "https://a.example/".toList, Event.process 1 "https://b.example/".toList] ∧
      ((batchTrace (worldFailingAt 0)
          ["https://a.example/".toList, "https://b.example/".toList]
          ["h1".toList] (some 1000)).filter isSuspend).length ≠ 2 - 1 := by
  decide

/-- Claim C16, amended. For every batch of URLs, every positive delay `d` and every
pattern of successes and failures, `scrapeMultipleUrls` processes the URLs in order
and suspends for `d` exactly once after each URL that was scraped successfully and is
not the last one, before it goes on to the next URL; it does not suspend after a
failed URL nor after the last one. The number of suspensions is the number of
successful URLs among all but the last. -/
theorem suspension_after_success (world : World) (urls selectors : List Str) (d : Nat)
    (hd : 0 < d) :
    batchTrace world urls selectors (some d) =
        urls.enum.flatMap (fun p =>
          Event.process p.1 p.2 ::
            (if (pageOf (scrapeUrl world p.1 p.2 selectors)).isSome = true ∧
                p.1 + 1 < urls.length then
              [Event.suspend d]
            else [])) ∧
      ((batchTrace world urls selectors (some d)).filter isSuspend).length =
        (urls.enum.filter (fun p =>
          (pageOf (scrapeUrl world p.1 p.2 selectors)).isSome &&
            decide (p.1 + 1 < urls.length))).length := by
  have htrace : batchTrace world urls selectors (some d) =
      urls.enum.flatMap (fun p =>
        Event.process p.1 p.2 ::
          (if ((pageOf (scrapeUrl world p.1 p.2 selectors)).isSome &&
              decide (p.1 + 1 < urls.length)) = true then
            [Event.suspend d]
          else [])) := by
    unfold batchTrace
    rw [batchLoop_trace, delayOf_pos d hd]
    unfold List.enum
    congr 1
    funext p
    congr 1
    have e : (p.1 < urls.length - 1) = (p.1 + 1 < urls.length) := by
      apply propext
      omega
    simp only [hd, true_and, e, Bool.and_eq_true, decide_eq_true_eq, gt_iff_lt]
  constructor
  · rw [htrace]
    congr 1
    funext p
    simp only [Bool.and_eq_true, decide_eq_true_eq]
  · rw [htrace, suspend_count]

/-- Claim C16 on three URLs that all succeed: two suspensions, one after the first and
one after the second URL. -/
theorem suspension_after_success_witness :
    0 < 1000 ∧
      batchTrace (worldFailingAt 7)
          ["https://a.example/".toList, "https://b.example/".toList, "https://c.example/".toList]
          ["h1".toList] (some 1000) =
        [ Event.process 0 "https://a.example/".toList, Event.suspend 1000,
          Event.process 1 "https://b.example/".toList, Event.suspend 1000,
          Event.process 2 "https://c.example/".toList ] :=
  ⟨by decide,
    (suspension_after_success (worldFailingAt 7)
      ["https://a.example/".toList, "https://b.example/".toList, "https://c.example/".toList]
      ["h1".toList] 1000 (by decide)).1.trans (by decide)⟩

/-- Claim C18. `saveToCsv` writes nothing exactly when the flattened row sequence is
empty: when the page list is absent or empty, or when the mode is separate and no
selector result of any page has an element. In combined mode every non-empty page list
gives a text: the header line, then one data line per page. -/
theorem no_output_iff_no_rows (pages : List PageResult) (textOnly : Bool)
    (hwf : ∀ data ∈ pages, data.WellFormed) :
    (∀ flattenMode, saveToCsv none flattenMode textOnly = none) ∧
      (∀ flattenMode, saveToCsv (some pages) flattenMode textOnly = none ↔
        pages.flatMap (fun data => convertToCsvFormat data flattenMode textOnly) = []) ∧
      (saveToCsv (some pages) "separate".toList textOnly = none ↔
        pages = [] ∨ ∀ data ∈ pages, ∀ entry ∈ data.selectorResults, entry.2.elements = []) ∧
      (saveToCsv (some pages) "combined".toList textOnly = none ↔ pages = []) ∧
      (pages ≠ [] →
        ∃ (first : FlatRow) (rest : List FlatRow),
          List.Forall₂
            (fun data row => convertToCsvFormat data "combined".toList textOnly = [row])
            pages (first :: rest) ∧
          saveToCsv (some pages) "combined".toList textOnly =
            some (joinWith [comma] (objectKeys first) ++ [lf] ++
              ((first :: rest).map (fun row =>
                joinWith [comma] ((objectKeys first).map (csvField row)) ++ [lf])).flatten)) := by
  refine ⟨fun _ => rfl, ?_, ?_, ?_, ?_⟩
  · intro flattenMode
    rw [saveToCsv_eq, encodeRows_eq_none_iff]
  · rw [saveToCsv_eq, encodeRows_eq_none_iff, List.flatMap_eq_nil_iff]
    constructor
    · intro h
      right
      intro data hd
      exact (convert_separate_eq_nil_iff data textOnly (hwf data hd)).1 (h data hd)
    · rintro (h | h)
      · subst h
        intro x hx
        cases hx
      · intro data hd
        exact (convert_separate_eq_nil_iff data textOnly (hwf data hd)).2 (h data hd)
  · rw [saveToCsv_eq, encodeRows_eq_none_iff]
    obtain ⟨rows, h1, h2⟩ := combined_rows pages textOnly hwf
    rw [h2]
    constructor
    · rintro rfl
      cases h1
      rfl
    · rintro rfl
      cases h1
      rfl
  · intro hne
    obtain ⟨rows, h1, h2⟩ := combined_rows pages textOnly hwf
    cases rows with
    | nil =>
      cases h1
      exact absurd rfl hne
    | cons first rest =>
      refine ⟨first, rest, h1, ?_⟩
      rw [saveToCsv_eq, h2, encodeRows_cons]

/-- Claim C18 on the example page alone. -/
theorem no_output_iff_no_rows_witness :
    (∀ data ∈ [demoPage], data.WellFormed) ∧
      (saveToCsv (some [demoPage]) "combined".toList false = none ↔ [demoPage] = []) ∧
      (saveToCsv (some [demoPage]) "separate".toList false = none ↔
        [demoPage] = [] ∨
          ∀ data ∈ [demoPage], ∀ entry ∈ data.selectorResults, entry.2.elements = []) :=
  ⟨by decide, (no_output_iff_no_rows [demoPage] false (by decide)).2.2.2.1,
    (no_output_iff_no_rows [demoPage] false (by decide)).2.2.1⟩

/-- Claim C20. Every column name of every row of `convertToCsvFormat` consists of
characters in `[A-Za-z0-9_]`; two combined-mode column names made of a name and one of
the suffixes `_count`, `_texts`, `_hrefs` are equal only when the names and the
suffixes are, and none is `url`, `timestamp` or `page_title`; so the header line that
`saveToCsv` writes holds no double quote, no newline and `k - 1` commas for `k`
columns. -/
theorem column_names_plain (pages : List PageResult) (flattenMode : Str) (textOnly : Bool)
    (hwf : ∀ data ∈ pages, data.WellFormed) :
    (∀ data ∈ pages, ∀ row ∈ convertToCsvFormat data flattenMode textOnly,
        ∀ k ∈ objectKeys row, ∀ c ∈ k, isColumnChar c = true) ∧
      (∀ s₁ s₂ suf₁ suf₂ : Str, suf₁ ∈ columnSuffixes → suf₂ ∈ columnSuffixes →
        s₁ ++ suf₁ = s₂ ++ suf₂ → s₁ = s₂ ∧ suf₁ = suf₂) ∧
      (∀ s suf : Str, suf ∈ columnSuffixes →
        s ++ suf ∉ ["url".toList, "timestamp".toList, "page_title".toList]) ∧
      (∀ (first : FlatRow) (rest : List FlatRow),
        pages.flatMap (fun data => convertToCsvFormat data flattenMode textOnly) =
          first :: rest →
        ∃ body : Str,
          saveToCsv (some pages) flattenMode textOnly =
            some (joinWith [comma] (objectKeys first) ++ lf :: body) ∧
          dquote ∉ joinWith [comma] (objectKeys first) ∧
          lf ∉ joinWith [comma] (objectKeys first) ∧
          (joinWith [comma] (objectKeys first)).count comma = (objectKeys first).length - 1) := by
  refine ⟨fun data hd => convert_row_keys_chars data flattenMode textOnly (hwf data hd),
    fun s₁ s₂ suf₁ suf₂ h₁ h₂ h => column_inj s₁ s₂ suf₁ suf₂ h₁ h₂ h, ?_, ?_⟩
  · intro s suf hsuf
    exact column_not_base ⟨[], [], [], []⟩ s suf hsuf
  · intro first rest hrows
    have hfirst : first ∈ pages.flatMap
        (fun data => convertToCsvFormat data flattenMode textOnly) := by
      rw [hrows]
      exact List.mem_cons_self _ _
    obtain ⟨data, hd, hrow⟩ := List.mem_flatMap.1 hfirst
    obtain ⟨h1, h2⟩ := joinWith_comma (objectKeys first)
      (convert_row_keys_chars data flattenMode textOnly (hwf data hd) first hrow)
    refine ⟨((first :: rest).map (fun row =>
      joinWith [comma] ((objectKeys first).map (csvField row)) ++ [lf])).flatten, ?_, ?_, ?_, h2⟩
    · rw [saveToCsv_eq, hrows, encodeRows_cons, List.append_assoc]
      rfl
    · intro hc
      rcases h1 _ hc with h | h
      · exact absurd h (by decide)
      · exact absurd h (by decide)
    · intro hc
      rcases h1 _ hc with h | h
      · exact absurd h (by decide)
      · exact absurd h (by decide)

/-- Claim C20 on the example page in combined mode. -/
theorem column_names_plain_witness :
    (∀ data ∈ [demoPage], data.WellFormed) ∧
      (∀ data ∈ [demoPage], ∀ row ∈ convertToCsvFormat data "combined".toList false,
        ∀ k ∈ objectKeys row, ∀ c ∈ k, isColumnChar c = true) :=
  ⟨by decide, (column_names_plain [demoPage] "combined".toList false (by decide)).1⟩

/-- Claim C11 as stated fails: the selector `ul`, line feed, `li` is stored in the row
as it is, and `saveToCsv` writes it, inside double quotes, with its line feed. -/
theorem raw_selector_keeps_line_feed :
    lineBreakSelectorPage.WellFormed ∧
      (convertToCsvFormat lineBreakSelectorPage "separate".toList true).map
          (fun row => getProp row "selector".toList) =
        [some (.str ("ul".toList ++ [lf] ++ "li".toList))] ∧
      (convertToCsvFormat lineBreakSelectorPage "separate".toList true).map
          (fun row => csvField row "selector".toList) =
        [[dquote] ++ "ul".toList ++ [lf] ++ "li".toList ++ [dquote]] ∧
      lf ∈ "ul".toList ++ [lf] ++ "li".toList := by
  decide

/-- Claim C11, amended. For every page, mode and `textOnly` setting, every string value
of a row of `convertToCsvFormat` outside the columns `url`, `timestamp`, `selector` and
`tag_name` holds neither a line feed nor a carriage return, because it is sanitised
when the row is built; these four columns hold the values of the page as they are.
So when the url, the timestamp, the selectors and the tag names of the page hold no
line feed, no field written by `saveToCsv` for a row of the page holds one. -/
theorem sanitised_values_no_line_break (data : PageResult) (flattenMode : Str)
    (textOnly : Bool) (hwf : data.WellFormed) :
    ∀ row ∈ convertToCsvFormat data flattenMode textOnly,
      (∀ (k v : Str), (k, Scalar.str v) ∈ row → k ∉ rawColumns → lf ∉ v ∧ cr ∉ v) ∧
      (RawLineFree data → ∀ header : Str, lf ∉ csvField row header) := by
  intro row hrow
  constructor
  · intro k v hkv hk
    have := convert_rows_all
      (fun kv => ∀ v, kv.2 = Scalar.str v → kv.1 ∉ rawColumns → lf ∉ v ∧ cr ∉ v)
      data flattenMode textOnly hwf
      (fun v _ hk => absurd (show "url".toList ∈ rawColumns by decide) hk)
      (fun v _ hk => absurd (show "timestamp".toList ∈ rawColumns by decide) hk)
      (fun _ _ v _ hk => absurd (show "selector".toList ∈ rawColumns by decide) hk)
      (fun _ _ _ _ v _ hk => absurd (show "tag_name".toList ∈ rawColumns by decide) hk)
      (fun k x v hv _ => by
        cases hv
        exact cleanForCsv_no_line_break x)
      (fun k n v hv _ => Scalar.noConfusion hv)
      row hrow (k, .str v) hkv
    exact this v rfl hk
  · intro hraw header
    apply lf_not_mem_csvField
    exact convert_rows_all (fun kv => ∀ v, kv.2 = Scalar.str v → lf ∉ v)
      data flattenMode textOnly hwf
      (fun v hv => by cases hv; exact hraw.1)
      (fun v hv => by cases hv; exact hraw.2.1)
      (fun entry he v hv => by cases hv; exact (hraw.2.2 entry he).1)
      (fun entry he el hel v hv => by cases hv; exact ((hraw.2.2 entry he).2 el hel))
      (fun k x v hv => by cases hv; exact (cleanForCsv_no_line_break x).1)
      (fun k n v hv => Scalar.noConfusion hv)
      row hrow

/-- Claim C11 on the example page in separate mode with all columns. -/
theorem sanitised_values_no_line_break_witness :
    demoPage.WellFormed ∧
      ∀ row ∈ convertToCsvFormat demoPage "separate".toList false,
        (∀ (k v : Str), (k, Scalar.str v) ∈ row → k ∉ rawColumns → lf ∉ v ∧ cr ∉ v) ∧
        (RawLineFree demoPage → ∀ header : Str, lf ∉ csvField row header) :=
  ⟨by decide, sanitised_values_no_line_break demoPage "separate".toList false (by decide)⟩

/-- Claim C19. For every string `t`, `cleanForCsv(t)` has no leading and no trailing
whitespace, holds no whitespace character other than the space, never two spaces in a
row, and its maximal runs of double quotes are those of `t`, in order, each twice as
long, hence of even length; `cleanForCsv` of an absent or empty value is the empty
string. -/
theorem cleanForCsv_normal_form (t : Str) :
    cleanForCsv none = [] ∧ cleanForCsv (some []) = [] ∧
      (∀ c, (cleanForCsv (some t)).head? = some c → isWhitespace c = false) ∧
      (∀ c, (cleanForCsv (some t)).getLast? = some c → isWhitespace c = false) ∧
      (∀ c ∈ cleanForCsv (some t), isWhitespace c = true → c = space) ∧
      List.Chain' (fun a b => ¬ (a = space ∧ b = space)) (cleanForCsv (some t)) ∧
      quoteRuns (cleanForCsv (some t)) = (quoteRuns t).map (fun n => 2 * n) ∧
      (∀ n ∈ quoteRuns (cleanForCsv (some t)), Even n) := by
  refine ⟨rfl, rfl, ?_, ?_, ?_, ?_, quoteRuns_cleanForCsv t, ?_⟩
  · rw [cleanForCsv_some_eq]
    exact trim_head _
  · rw [cleanForCsv_some_eq]
    exact trim_last _
  · rw [cleanForCsv_some_eq]
    intro c hc hw
    exact collapseAux_whitespace false _ c (mem_of_mem_trim _ c hc) hw
  · rw [cleanForCsv_some_eq]
    have h := List.Chain'.infix (collapseAux_chain (replaceNewlines (doubleQuotes t))).1
      (trim_contiguous _)
    refine h.imp ?_
    intro a b hab hs
    apply hab
    rw [hs.1, hs.2]
    exact ⟨by decide, by decide⟩
  · rw [quoteRuns_cleanForCsv]
    intro n hn
    obtain ⟨m, _, rfl⟩ := List.mem_map.1 hn
    exact even_two_mul m

end Scrape
